import Mathlib

/-!
Verification development for `google_maps_scraper/scraper.py`.

The Python source is shallowly embedded: strings are `List Char` wrapped in
`String`, the regular expressions used by the scraper are compiled by hand
into a small backtracking matcher with Python's leftmost-first semantics,
and the per-listing extraction pipeline is an explicit sequence of stage
functions over an extraction state.  Digits are modelled as ASCII digits
and Python's whitespace set is modelled by `pyWsChar`.
-/

/-- The sentinel `"N/A"` as a character list. -/
def naL : List Char := ['N', '/', 'A']

/-- Characters of the Unicode Private Use Area, removed by `clean_text`
(scraper.py line 11: `re.sub(r'[-]', '', text)`). -/
def isPUA (c : Char) : Bool :=
  decide (0xE000 ≤ c.toNat) && decide (c.toNat ≤ 0xF8FF)

/-- Python's whitespace set (`str.split()` / `str.strip()` / regex `\s`). -/
def pyWsChar (c : Char) : Bool :=
  let n := c.toNat
  (decide (9 ≤ n) && decide (n ≤ 13)) || decide (n = 32) ||
  (decide (28 ≤ n) && decide (n ≤ 31)) || decide (n = 0x85) ||
  decide (n = 0xA0) || decide (n = 0x1680) ||
  (decide (0x2000 ≤ n) && decide (n ≤ 0x200A)) ||
  decide (n = 0x2028) || decide (n = 0x2029) || decide (n = 0x202F) ||
  decide (n = 0x205F) || decide (n = 0x3000)

/-- Strip characters satisfying `p` from both ends (Python `str.strip`). -/
def stripBy (p : Char → Bool) (l : List Char) : List Char :=
  ((l.dropWhile p).reverse.dropWhile p).reverse

/-- Worker for `pyWords`: split on whitespace runs, dropping empties,
accumulating the current word in reverse in `acc`. -/
def wordsAux : List Char → List Char → List (List Char)
  | [], acc => if acc.isEmpty then [] else [acc.reverse]
  | c :: cs, acc =>
    if pyWsChar c then
      (if acc.isEmpty then wordsAux cs [] else acc.reverse :: wordsAux cs [])
    else wordsAux cs (c :: acc)

/-- Python `text.split()` (no argument): whitespace-run splitting. -/
def pyWords (l : List Char) : List (List Char) := wordsAux l []

/-- Python `' '.join ws`. -/
def joinSp : List (List Char) → List Char
  | [] => []
  | [w] => w
  | w :: ws => w ++ ' ' :: joinSp ws

/-- Body of `clean_text` on a non-empty string: remove PUA characters,
collapse whitespace runs to single spaces, trim ends (scraper.py 11-13). -/
def cleanL (l : List Char) : List Char :=
  stripBy pyWsChar (joinSp (pyWords (l.filter (fun c => !isPUA c))))

/-- `clean_text` on string contents: a falsy (empty) string gives `"N/A"`
(scraper.py line 9: `if not text: return "N/A"`). -/
def cleanLText (l : List Char) : List Char :=
  if l.isEmpty then naL else cleanL l

/-- `clean_text` of scraper.py lines 8-13, on `String`. -/
def clean_text (s : String) : String := String.mk (cleanLText s.data)

/-- `clean_text` applied to an optional string (`None` is falsy in Python). -/
def cleanTextOpt : Option String → String
  | none => "N/A"
  | some s => clean_text s

/-- Python `x or "N/A"` for an optional string value (used for the
JS-extracted rating and the website default). -/
def pyOrNA : Option String → String
  | none => "N/A"
  | some s => if s = "" then "N/A" else s

/-- Reason the scrolling loop of scraper.py lines 81-119 terminated. -/
inductive ScrollExit where
  | maxedOut
  | endMarker
  | stalled
  | scrollErr
deriving DecidableEq, Repr

/-- Observable outcome of the scrolling loop: the last item count read,
the stall counter, the attempt counter at exit, and the exit reason. -/
structure ScrollResult where
  last_count : Nat
  consecutive_no_change : Nat
  scroll_attempts : Nat
  exitReason : ScrollExit
deriving DecidableEq, Repr

/-- The scrolling loop of scraper.py lines 81-119.  `counts i` is the
rendered item count read at iteration `i` (line 82), `end_marker i` the
visibility of the end-of-list marker, and the two `..._fail` functions
model the scroll evaluations at lines 101 and 111 raising.  `fuel`
equals `max_scroll_attempts - a`, so fuel running out is exactly the
loop condition `scroll_attempts < max_scroll_attempts` failing. -/
def scroll_loop (counts : Nat → Nat) (end_marker stall_scroll_fail main_scroll_fail : Nat → Bool) :
    Nat → Nat → Nat → Nat → ScrollResult
  | 0, a, prev, consec => ⟨prev, consec, a, .maxedOut⟩
  | fuel + 1, a, prev, consec =>
    let current := counts a
    if current = prev ∧ 0 < a then
      let consec2 := consec + 1
      if end_marker a then ⟨current, consec2, a, .endMarker⟩
      else if 3 ≤ consec2 then ⟨current, consec2, a, .stalled⟩
      else if stall_scroll_fail a then ⟨current, consec2, a, .scrollErr⟩
      else if main_scroll_fail a then ⟨current, consec2, a, .scrollErr⟩
      else scroll_loop counts end_marker stall_scroll_fail main_scroll_fail fuel (a + 1) current consec2
    else
      if main_scroll_fail a then ⟨current, 0, a, .scrollErr⟩
      else scroll_loop counts end_marker stall_scroll_fail main_scroll_fail fuel (a + 1) current 0

/-- `max_scroll_attempts = 20` (scraper.py line 78). -/
def max_scroll_attempts : Nat := 20

/-- Run the scrolling loop from its initial state (lines 76-79). -/
def run_scroll_loop (counts : Nat → Nat) (end_marker stall_scroll_fail main_scroll_fail : Nat → Bool) : ScrollResult :=
  scroll_loop counts end_marker stall_scroll_fail main_scroll_fail max_scroll_attempts 0 0 0

/-- Item count sequence of spec Scenario 4: `[0,5,5,5,5]`. -/
def c7_counts : Nat → Nat := fun i => if i = 0 then 0 else 5

/-- C7: for the feed item-count sequence `[0,5,5,5,5]` with the end-of-list
marker never visible, the collector terminates with the stall-detection
exit after 3 consecutive unchanged counts, having read exactly the five
counts `0,5,5,5,5`, and the final observed item count is `5`. -/
theorem c7_stall_termination :
    (List.range 5).map c7_counts = [0, 5, 5, 5, 5] ∧
    run_scroll_loop c7_counts (fun _ => false) (fun _ => false) (fun _ => false) =
      ⟨5, 3, 4, ScrollExit.stalled⟩ := by
  constructor <;> rfl

/-- Python `text.replace(old, '', 1)` when `old = p :: ps`: remove the first
occurrence of the pattern. -/
def replFirstAux (p : Char) (ps : List Char) : List Char → List Char
  | [] => []
  | c :: cs =>
    if (p :: ps).isPrefixOf (c :: cs) then cs.drop ps.length
    else c :: replFirstAux p ps cs

/-- Python `text.replace(old, '', 1)`.  An empty pattern removes nothing. -/
def replFirst (l pat : List Char) : List Char :=
  match pat with
  | [] => l
  | p :: ps => replFirstAux p ps l

/-- Python `text.replace(old, new)` (all non-overlapping occurrences,
left to right) when `old = p :: ps`.  Structural recursion on a fuel
bounded by the input length (every step consumes at least one input
character, so the fuel never runs out when started at the length). -/
def replAllAux (p : Char) (ps rep : List Char) : Nat → List Char → List Char
  | 0, l => l
  | _ + 1, [] => []
  | f + 1, c :: cs =>
    if (p :: ps).isPrefixOf (c :: cs) then rep ++ replAllAux p ps rep f (cs.drop ps.length)
    else c :: replAllAux p ps rep f cs

/-- Python `text.replace(old, new)`.  An empty pattern is never used here. -/
def replAll (l pat rep : List Char) : List Char :=
  match pat with
  | [] => l
  | p :: ps => replAllAux p ps rep l.length l

/-- Python `pat in text` (substring containment). -/
def containsL : List Char → List Char → Bool
  | l, pat =>
    pat.isPrefixOf l ||
      (match l with
       | [] => false
       | _ :: cs => containsL cs pat)

/-- The substring of `l` spanned by `(i, i + n)` (a regex match span). -/
def segL (l : List Char) (i n : Nat) : List Char := (l.drop i).take n

/-- `remove_match_from_string` of scraper.py lines 16-20: splice out the
span `(i, i + n)`. -/
def remove_match_from_string (l : List Char) (i n : Nat) : List Char :=
  l.take i ++ l.drop (i + n)

/-- Regular expressions as used by the scraper: character classes with the
greedy quantifiers actually occurring in its patterns.  Quantifiers apply
only to single-character classes, except `opt` (regex `(...)?`). -/
inductive RE where
  | eps : RE
  | cls (p : Char → Bool) : RE
  | seq (a b : RE) : RE
  | alt (a b : RE) : RE
  | opt (a : RE) : RE
  | rep (p : Char → Bool) (lo : Nat) (hi : Option Nat) : RE

/-- Length of the leading run of characters satisfying `p`, capped at `hi`. -/
def leadRun (p : Char → Bool) (hi : Option Nat) : List Char → Nat
  | [] => 0
  | c :: cs =>
    match hi with
    | some 0 => 0
    | some (m + 1) => if p c then leadRun p (some m) cs + 1 else 0
    | none => if p c then leadRun p none cs + 1 else 0

/-- Candidate consumption counts for a greedy `rep`, longest first:
`[run, run - 1, ..., lo]`. -/
def descList (run lo : Nat) : List Nat :=
  (List.range (run + 1 - lo)).map (fun i => run - i)

/-- Try the continuation after dropping each candidate count, first
success wins (greedy backtracking order). -/
def tryLens (k : List Char → Option (List Char)) (l : List Char) :
    List Nat → Option (List Char)
  | [] => none
  | n :: ns =>
    match k (l.drop n) with
    | some r => some r
    | none => tryLens k l ns

/-- Backtracking matcher with Python's leftmost-first semantics.  The
continuation `k` receives the remaining input; the first success in
backtracking order is returned. -/
def matchRE : RE → List Char → (List Char → Option (List Char)) → Option (List Char)
  | .eps, l, k => k l
  | .cls _, [], _ => none
  | .cls p, c :: cs, k => if p c then k cs else none
  | .seq a b, l, k => matchRE a l (fun l2 => matchRE b l2 k)
  | .alt a b, l, k =>
    match matchRE a l k with
    | some r => some r
    | none => matchRE b l k
  | .opt a, l, k =>
    match matchRE a l k with
    | some r => some r
    | none => k l
  | .rep p lo hi, l, k =>
    let run := leadRun p hi l
    if run < lo then none else tryLens k l (descList run lo)

/-- Length of the leftmost-first match of `r` at the start of `l`
(Python `re.match`), if any. -/
def matchLen (r : RE) (l : List Char) : Option Nat :=
  (matchRE r l some).map (fun rem => l.length - rem.length)

/-- Worker for `searchRE`: try match at position `i`, then advance. -/
def searchAux (r : RE) : List Char → Nat → Option (Nat × Nat)
  | [], i =>
    match matchLen r [] with
    | some n => some (i, n)
    | none => none
  | c :: cs, i =>
    match matchLen r (c :: cs) with
    | some n => some (i, n)
    | none => searchAux r cs (i + 1)

/-- Python `re.search`: the span `(start, length)` of the leftmost match. -/
def searchRE (r : RE) (l : List Char) : Option (Nat × Nat) := searchAux r l 0

/-- Currency symbols of the price patterns (scraper.py lines 239, 248, 260). -/
def symChar (c : Char) : Bool :=
  c = '£' || c = '$' || c = '€' || c = '₹' || c = '¥' || c = '฿'

/-- The class `[\d,.-–+]` of the broad price pattern.  Note that `.-–`
parses as the character range U+002E..U+2013. -/
def broadChar (c : Char) : Bool :=
  c.isDigit || c = ',' || (decide (0x2E ≤ c.toNat) && decide (c.toNat ≤ 0x2013)) || c = '+'

/-- The class `[\d.,]` of the clean price pattern. -/
def digDotComma (c : Char) : Bool := c.isDigit || c = '.' || c = ','

/-- The class `[–-]` (en dash or hyphen) of the clean price pattern. -/
def dashChar (c : Char) : Bool := c = '–' || c = '-'

/-- `price_regex_num_broad = r'([£$€₹¥฿][\s]*[\d,.-–+]+)'` (line 239). -/
def broadRE : RE :=
  .seq (.cls symChar) (.seq (.rep pyWsChar 0 none) (.rep broadChar 1 none))

/-- `price_regex_num_clean` (line 248):
`^([£$€₹¥฿][\s]*(?:[\d.,]+(?:[–-][\d.,]+)?|[£$€₹¥฿]{0,2})\+?)`. -/
def cleanRE : RE :=
  .seq (.cls symChar)
    (.seq (.rep pyWsChar 0 none)
      (.seq
        (.alt (.seq (.rep digDotComma 1 none)
                (.opt (.seq (.cls dashChar) (.rep digDotComma 1 none))))
              (.rep symChar 0 (some 2)))
        (.opt (.cls (fun c => c = '+')))))

/-- `price_regex_sym = r'([£$€₹¥฿]{1,4})'` (line 260). -/
def symRE : RE := .rep symChar 1 (some 4)

/-- The class `[ \-]` of the phone pattern. -/
def spDash (c : Char) : Bool := c = ' ' || c = '-'

/-- The class `[\s-]` of the phone pattern. -/
def wsDash (c : Char) : Bool := pyWsChar c || c = '-'

/-- `phone_regex` (line 268):
`(\+\d{1,4}[ \-]?(\(?\d{2,4}\)?|[\d]{2,4})[ \-]?\d{3,}[\s-]?\d{3,})`. -/
def phoneRE : RE :=
  .seq (.cls (fun c => c = '+'))
    (.seq (.rep Char.isDigit 1 (some 4))
      (.seq (.opt (.cls spDash))
        (.seq (.alt (.seq (.opt (.cls (fun c => c = '(')))
                      (.seq (.rep Char.isDigit 2 (some 4))
                        (.opt (.cls (fun c => c = ')')))))
                    (.rep Char.isDigit 2 (some 4)))
          (.seq (.opt (.cls spDash))
            (.seq (.rep Char.isDigit 3 none)
              (.seq (.opt (.cls wsDash)) (.rep Char.isDigit 3 none)))))))

/-- A single literal character matched case-insensitively (`re.IGNORECASE`,
ASCII, sufficient for the keywords involved). -/
def ciAtom (c : Char) : RE := .cls (fun x => x.toLower = c.toLower)

/-- A case-insensitive literal word as a regex. -/
def ciLit (cs : List Char) : RE := cs.foldr (fun c r => .seq (ciAtom c) r) .eps

/-- The type pattern of scraper.py line 300, `r'\\b{}\\b'.format(re.escape(k))`.
Because the raw string contains `\\b`, the compiled regex matches a LITERAL
backslash followed by `b` (case-insensitively) around the keyword, not a
word boundary. -/
def typeRE (k : List Char) : RE := ciLit ('\\' :: 'b' :: k ++ ['\\', 'b'])

/-- First-in-list-wins alternation. -/
def altN : List RE → RE
  | [] => .cls (fun _ => false)
  | [r] => r
  | r :: rs => .alt r (altN rs)

/-- The optional separator group of the address pattern (line 320),
`(\\s*·\\s*)?` body: again a LITERAL backslash, a run of `s`, `·`,
a literal backslash and a run of `s` (never matching normal text). -/
def addrSepGroup : RE :=
  .seq (.cls (fun c => c = '\\'))
    (.seq (.rep (fun c => c.toLower = 's') 0 none)
      (.seq (.cls (fun c => c = '·'))
        (.seq (.cls (fun c => c = '\\'))
          (.rep (fun c => c.toLower = 's') 0 none))))

/-- Status/hours keywords of the address truncation pattern (line 320). -/
def addrStopWords : List (List Char) :=
  ["Open", "Closed", "Closes", "Opening", "Hours", "Serves", "Delivers",
   "Takeout", "Dine-in", "Pickup", "Delivery", "Offers", "Ends", "Starts",
   "Temporary", "Permanently"].map String.data

/-- Leading part of the address truncation pattern (everything before
`.*$`, which only determines that the rest of the line is removed). -/
def addrStopRE : RE := .seq (.opt addrSepGroup) (altN (addrStopWords.map ciLit))

/-- The address truncation `re.sub(r'(\\s*·\\s*)?(Open|...).*$', '', w)`
(line 320): cut the text at the leftmost match start.  The working text
here never contains a newline (it is `clean_text` output), so `.*$`
reaches the end of the string. -/
def addrCut (l : List Char) : List Char :=
  match searchRE addrStopRE l with
  | some (i, _) => l.take i
  | none => l

/-- First `(\d\.\d)` match of a text, as in the rating extraction of
`js_extractor` (scraper.py line 148). -/
def ddRE : RE := .seq (.cls Char.isDigit) (.seq (.cls (fun c => c = '.')) (.cls Char.isDigit))

/-- The first one-decimal-digit rating substring of a text, if any. -/
def ddFirst (l : List Char) : Option (List Char) :=
  (searchRE ddRE l).map (fun pr => segL l pr.1 pr.2)

/-- The data extracted for one feed item: the JS-extracted fields of
`js_extractor` (name, rating_text, reviews_text, website_url) together
with the `div.fontBodyMedium` info fragment texts fetched at
scraper.py lines 200-201. -/
structure ItemData where
  name : Option String
  rating_text : Option String
  reviews_text : Option String
  website_url : Option String
  info_texts : List String
deriving DecidableEq, Repr

/-- One produced listing record (scraper.py lines 338-347).  All fields are
strings except the website, which in Python may still hold `None`
(modelled as `none`) if the sentinel defaulting at line 329 was skipped. -/
structure ListingRecord where
  name : String
  rating : String
  reviews : String
  price_str : String
  place_type : String
  address : String
  phone_number : String
  website_url : Option String
deriving DecidableEq, Repr

/-- Mutable extraction state of the per-item Python processing: the
shrinking working text plus the fields assigned by the guarded passes. -/
structure ExtState where
  working : List Char
  price_str : List Char
  place_type : List Char
  address : List Char
  phone_number : List Char
  website_url : Option String
deriving DecidableEq, Repr

/-- `' · '.join(filter(None, info_texts))` (scraper.py line 202). -/
def joinFrags : List (List Char) → List Char
  | [] => []
  | [x] => x
  | x :: xs => x ++ ' ' :: '·' :: ' ' :: joinFrags xs

/-- `full_info_text_original` (line 202): the cleaned separator-join of the
non-empty info fragments. -/
def fullInfo (info_texts : List String) : List Char :=
  cleanLText (joinFrags ((info_texts.filter (fun s => s ≠ "")).map String.data))

/-- Lines 226-227: drop the first verbatim occurrence of the JS rating from
the working text (only when the rating is not the sentinel). -/
def stRemoveRating (rating : List Char) (st : ExtState) : ExtState :=
  if rating ≠ naL ∧ containsL st.working rating then
    { st with working := replFirst st.working rating }
  else st

/-- Lines 228-229: same for the JS reviews text. -/
def stRemoveReviews (reviews : List Char) (st : ExtState) : ExtState :=
  if reviews ≠ naL ∧ containsL st.working reviews then
    { st with working := replFirst st.working reviews }
  else st

/-- Line 231: `working_info_text = clean_text(working_info_text)`. -/
def stClean0 (st : ExtState) : ExtState :=
  { st with working := cleanLText st.working }

/-- Tier A of the price pass (lines 238-256): broad search, anchored clean
re-match, acceptance of the clean group, removal of the broad span. -/
def tierA (st : ExtState) : ExtState :=
  match searchRE broadRE st.working with
  | some (i, n) =>
    match matchLen cleanRE (segL st.working i n) with
    | some m =>
      { st with
        price_str := cleanLText ((segL st.working i n).take m)
        working := remove_match_from_string st.working i n }
    | none => st
  | none => st

/-- Tier B of the price pass (lines 258-265): symbol-only fallback, run
only while the price is still the sentinel. -/
def tierB (st : ExtState) : ExtState :=
  if st.price_str = naL then
    match searchRE symRE st.working with
    | some (i, n) =>
      { st with
        price_str := cleanLText (segL st.working i n)
        working := remove_match_from_string st.working i n }
    | none => st
  else st

/-- The full price pass (lines 233-265). -/
def stPrice (st : ExtState) : ExtState := tierB (tierA st)

/-- The phone pass (lines 267-277): search on the ORIGINAL info text; on a
match, store the cleaned match and remove its first verbatim occurrence
from the working text (`re.sub(re.escape(..), '', .., count=1)`). -/
def stPhone (orig : List Char) (st : ExtState) : ExtState :=
  match searchRE phoneRE orig with
  | some (i, n) =>
    { st with
      phone_number := cleanLText (segL orig i n)
      working := replFirst st.working (segL orig i n) }
  | none => st

/-- Line 280: `clean_text(working.replace('· ·', '·').strip(' ·'))`. -/
def stClean1 (st : ExtState) : ExtState :=
  { st with
    working := cleanLText (stripBy (fun c => c = ' ' || c = '·')
      (replAll st.working ['·', ' ', '·'] ['·'])) }

/-- The ordered canonical category list `known_types` (lines 285-295). -/
def known_types : List (List Char) :=
  ["Used book store", "Comic book store", "Rare book store",
   "Book store",
   "Restaurant", "Cafe", "Bar", "Pub", "Hotel", "Steakhouse", "Steak",
   "Chophouse", "Pakistani", "Indian", "Chinese", "Italian", "Thai",
   "Japanese", "Mexican", "Greek", "Turkish", "Lebanese", "Brunch",
   "Bakery", "Dessert", "Coffee", "Tea", "Fast Food", "Fine Dining",
   "Barbecue"].map String.data

/-- The keyword loop of the type pass (lines 296-309): first keyword whose
(backslash-anchored) pattern matches wins; the canonical spelling is
stored and the matched span removed. -/
def tryTypes : List (List Char) → ExtState → ExtState
  | [], st => st
  | k :: ks, st =>
    match searchRE (typeRE k) st.working with
    | some (i, n) =>
      { st with
        place_type := k
        working := remove_match_from_string st.working i n }
    | none => tryTypes ks st

/-- The type pass (lines 283-312). -/
def stType (st : ExtState) : ExtState := tryTypes known_types st

/-- Line 315: `clean_text(working.strip(' ·'))`. -/
def stClean2 (st : ExtState) : ExtState :=
  { st with working := cleanLText (stripBy (fun c => c = ' ' || c = '·') st.working) }

/-- The address pass (lines 318-323): truncate the trailing status clause,
clean, and require at least 5 characters. -/
def stAddress (st : ExtState) : ExtState :=
  if st.working = [] then st
  else
    { st with
      address :=
        if cleanLText (stripBy pyWsChar (addrCut st.working)) = [] ∨
            (cleanLText (stripBy pyWsChar (addrCut st.working))).length < 5 then naL
        else cleanLText (stripBy pyWsChar (addrCut st.working)) }

/-- Lines 326-327: collapse the type to the sentinel on collision with the
address, then reset an empty or purely numeric type to the sentinel. -/
def sanityType (t a : List Char) : List Char :=
  if (if t = a then naL else t) = [] ∨ (if t = a then naL else t).all Char.isDigit then naL
  else if t = a then naL else t

/-- Line 328: reset an empty or purely numeric address to the sentinel. -/
def sanityAddr (a : List Char) : List Char :=
  if a = [] ∨ a.all Char.isDigit then naL else a

/-- The final sanity pass as applied to the state (lines 325-329). -/
def stSanity (st : ExtState) : ExtState :=
  { st with
    place_type := sanityType st.place_type st.address
    address := sanityAddr st.address
    website_url := some (pyOrNA st.website_url) }

/-- Stage dispatch: the ten statements of the guarded block (lines 221-330)
in source order. -/
def applyStage (orig rating reviews : List Char) (i : Nat) (st : ExtState) : ExtState :=
  match i with
  | 0 => stRemoveRating rating st
  | 1 => stRemoveReviews reviews st
  | 2 => stClean0 st
  | 3 => stPrice st
  | 4 => stPhone orig st
  | 5 => stClean1 st
  | 6 => stType st
  | 7 => stClean2 st
  | 8 => stAddress st
  | 9 => stSanity st
  | _ => st

/-- Number of stages of the guarded block. -/
def numStages : Nat := 10

/-- Run the first `n` stages (a fault after stage `n - 1` leaves exactly
this state, which the `except` handler at lines 331-336 preserves). -/
def runStages (orig rating reviews : List Char) (n : Nat) (st : ExtState) : ExtState :=
  (List.range n).foldl (fun s i => applyStage orig rating reviews i s) st

/-- `reviews = clean_text(reviews_text) or "N/A"` (line 194). -/
def jsReviews (o : Option String) : String :=
  let r := cleanTextOpt o
  if r = "" then "N/A" else r

/-- Process one feed item, with `fault` modelling an exception raised after
`fault` completed stages of the guarded block (lines 221-336); `fault ≥ 10`
means no exception.  Returns `none` when the item is skipped for a missing
name (lines 214-216), otherwise the appended record (lines 338-348). -/
def parseItemF (d : ItemData) (fault : Nat) : Option ListingRecord :=
  let name := cleanTextOpt d.name
  let rating := pyOrNA d.rating_text
  let reviews := jsReviews d.reviews_text
  let orig := fullInfo d.info_texts
  if name = "" ∨ name = "N/A" then none
  else
    let st0 : ExtState :=
      { working := orig, price_str := naL, place_type := naL,
        address := naL, phone_number := naL, website_url := d.website_url }
    let fin := runStages orig rating.data reviews.data (Nat.min fault numStages) st0
    some
      { name := name
        rating := rating
        reviews := reviews
        price_str := String.mk fin.price_str
        place_type := String.mk fin.place_type
        address := String.mk fin.address
        phone_number := String.mk fin.phone_number
        website_url := fin.website_url }

/-- Fault-free processing of one item (the real executions: the guarded
block is total, so the handler never fires). -/
def parseItem (d : ItemData) : Option ListingRecord := parseItemF d numStages

/-- The extraction loop over the collected items (lines 178-349), with a
per-item fault schedule `fs` (item `i` faults after `fs i` stages). -/
def results_loop (fs : Nat → Nat) : Nat → List ItemData → List ListingRecord
  | _, [] => []
  | i, d :: ds =>
    match parseItemF d (fs i) with
    | some r => r :: results_loop fs (i + 1) ds
    | none => results_loop fs (i + 1) ds

/-- The browser session as the collector observes it. -/
structure SessionEnv where
  feed_visible : Bool
  counts : Nat → Nat
  end_marker : Nat → Bool
  stall_scroll_fail : Nat → Bool
  main_scroll_fail : Nat → Bool
  items : List ItemData

/-- `scrape_google_maps` (scraper.py lines 22-353): if the result feed never
becomes visible within the timeout, return `[]` (lines 63-69); otherwise
drive the feed and extract a record per named item.  A total function:
no exception propagates to the caller. -/
def scrape_google_maps (env : SessionEnv) : List ListingRecord :=
  if env.feed_visible = false then []
  else
    let _scroll := run_scroll_loop env.counts env.end_marker
      env.stall_scroll_fail env.main_scroll_fail
    results_loop (fun _ => numStages) 0 env.items

/-- Words produced by `wordsAux` are non-empty and whitespace-free,
provided the accumulator is whitespace-free. -/
theorem wordsAux_sound : ∀ (l acc : List Char), (∀ c ∈ acc, pyWsChar c = false) →
    ∀ w ∈ wordsAux l acc, w ≠ [] ∧ ∀ c ∈ w, pyWsChar c = false := by
  intro l
  induction l with
  | nil =>
    intro acc hacc w hw
    simp only [wordsAux] at hw
    by_cases h : acc.isEmpty
    · simp [h] at hw
    · simp [h] at hw
      subst hw
      refine ⟨?_, ?_⟩
      · intro hrev
        rw [List.isEmpty_iff] at h
        exact h (by simpa using congrArg List.reverse hrev)
      · intro c hc
        exact hacc c (List.mem_reverse.mp hc)
  | cons c cs ih =>
    intro acc hacc w hw
    simp only [wordsAux] at hw
    by_cases hws : pyWsChar c
    · simp only [hws, if_true] at hw
      by_cases hacce : acc.isEmpty
      · simp only [hacce, if_true] at hw
        exact ih [] (by simp) w hw
      · simp only [hacce, if_false] at hw
        rcases List.mem_cons.mp hw with h | h
        · subst h
          refine ⟨?_, ?_⟩
          · intro hrev
            rw [List.isEmpty_iff] at hacce
            exact hacce (by simpa using congrArg List.reverse hrev)
          · intro x hx
            exact hacc x (List.mem_reverse.mp hx)
        · exact ih [] (by simp) w h
    · simp only [hws, if_false] at hw
      refine ih (c :: acc) ?_ w hw
      intro x hx
      rcases List.mem_cons.mp hx with h | h
      · subst h; simpa using hws
      · exact hacc x h

/-- Consuming a whitespace-free block prepends its reversal to the
accumulator. -/
theorem wordsAux_append : ∀ (w r acc : List Char), (∀ c ∈ w, pyWsChar c = false) →
    wordsAux (w ++ r) acc = wordsAux r (w.reverse ++ acc) := by
  intro w
  induction w with
  | nil => intro r acc _; simp
  | cons c w' ih =>
    intro r acc hw
    have hc : pyWsChar c = false := hw c (by simp)
    simp only [List.cons_append, wordsAux, hc, Bool.false_eq_true, if_false, List.append_eq]
    rw [ih r (c :: acc) (fun x hx => hw x (by simp [hx]))]
    simp

/-- A space flushes a non-empty accumulator as a word. -/
theorem wordsAux_space (r acc : List Char) (hacc : acc ≠ []) :
    wordsAux (' ' :: r) acc = acc.reverse :: wordsAux r [] := by
  have hsp : pyWsChar ' ' = true := by decide
  have hne : acc.isEmpty = false := by
    cases acc with
    | nil => exact absurd rfl hacc
    | cons a l => rfl
  simp [wordsAux, hsp, hne]

/-- Splitting the space-join of non-empty whitespace-free words recovers
exactly those words. -/
theorem pyWords_joinSp : ∀ ws : List (List Char),
    (∀ w ∈ ws, w ≠ [] ∧ ∀ c ∈ w, pyWsChar c = false) →
    pyWords (joinSp ws) = ws := by
  intro ws
  induction ws with
  | nil => intro _; rfl
  | cons w ws ih =>
    intro h
    obtain ⟨hwne, hwns⟩ := h w (by simp)
    cases ws with
    | nil =>
      show wordsAux (joinSp [w]) [] = [w]
      have : joinSp [w] = w ++ [] := by simp [joinSp]
      rw [this, wordsAux_append w [] [] hwns]
      have hne : (w.reverse ++ []).isEmpty = false := by
        simp only [List.append_nil]
        cases hrev : w.reverse with
        | nil => exact absurd (by simpa using congrArg List.reverse hrev) hwne
        | cons a l => rfl
      simp [wordsAux, hne, hwne]
    | cons x xs =>
      show wordsAux (joinSp (w :: x :: xs)) [] = w :: x :: xs
      have hj : joinSp (w :: x :: xs) = w ++ ' ' :: joinSp (x :: xs) := rfl
      rw [hj, wordsAux_append w _ [] hwns]
      have hra : w.reverse ++ [] ≠ [] := by
        simp only [List.append_nil]
        intro hrev
        exact hwne (by simpa using congrArg List.reverse hrev)
      rw [wordsAux_space _ _ hra]
      have : (w.reverse ++ []).reverse = w := by simp
      rw [this]
      exact congrArg (w :: ·) (ih (fun u hu => h u (by simp [hu])))

/-- The space-join of a non-empty word list starts with the first word. -/
theorem joinSp_cons (w : List Char) (ws : List (List Char)) :
    ∃ r, joinSp (w :: ws) = w ++ r := by
  cases ws with
  | nil => exact ⟨[], by simp [joinSp]⟩
  | cons x xs => exact ⟨' ' :: joinSp (x :: xs), rfl⟩

/-- Appending a word to a non-empty list extends the join by a space. -/
theorem joinSp_append_single : ∀ (ys : List (List Char)) (y : List Char), ys ≠ [] →
    joinSp (ys ++ [y]) = joinSp ys ++ ' ' :: y := by
  intro ys
  induction ys with
  | nil => intro y h; exact absurd rfl h
  | cons y0 ys ih =>
    intro y _
    cases ys with
    | nil => rfl
    | cons y1 ys' =>
      have : joinSp ((y0 :: y1 :: ys') ++ [y]) = y0 ++ ' ' :: joinSp ((y1 :: ys') ++ [y]) := rfl
      rw [this, ih y (by simp)]
      simp [joinSp]

/-- Reversing the space-join reverses the word list and every word. -/
theorem joinSp_reverse : ∀ ws : List (List Char),
    (joinSp ws).reverse = joinSp ((ws.map List.reverse).reverse) := by
  intro ws
  induction ws with
  | nil => rfl
  | cons w ws ih =>
    cases ws with
    | nil => simp [joinSp]
    | cons x xs =>
      have hj : joinSp (w :: x :: xs) = w ++ ' ' :: joinSp (x :: xs) := rfl
      rw [hj]
      have hmapne : ((x :: xs).map List.reverse).reverse ≠ [] := by simp
      have hr : ((w :: x :: xs).map List.reverse).reverse
          = ((x :: xs).map List.reverse).reverse ++ [w.reverse] := by simp
      rw [hr, joinSp_append_single _ _ hmapne, ← ih]
      simp

/-- Characters of a space-join are spaces or characters of the words. -/
theorem mem_joinSp : ∀ (ws : List (List Char)) (c : Char), c ∈ joinSp ws →
    c = ' ' ∨ ∃ w ∈ ws, c ∈ w := by
  intro ws
  induction ws with
  | nil => intro c hc; simp [joinSp] at hc
  | cons w ws ih =>
    intro c hc
    cases ws with
    | nil => exact Or.inr ⟨w, by simp, by simpa [joinSp] using hc⟩
    | cons x xs =>
      have hj : joinSp (w :: x :: xs) = w ++ ' ' :: joinSp (x :: xs) := rfl
      rw [hj] at hc
      rcases List.mem_append.mp hc with h | h
      · exact Or.inr ⟨w, by simp, h⟩
      · rcases List.mem_cons.mp h with h | h
        · exact Or.inl h
        · rcases ih c h with h | ⟨u, hu, hcu⟩
          · exact Or.inl h
          · exact Or.inr ⟨u, by simp [hu], hcu⟩

/-- Characters of words of `wordsAux` come from the input or accumulator. -/
theorem mem_wordsAux : ∀ (l acc : List Char) (w : List Char) (c : Char),
    w ∈ wordsAux l acc → c ∈ w → c ∈ l ∨ c ∈ acc := by
  intro l
  induction l with
  | nil =>
    intro acc w c hw hc
    simp only [wordsAux] at hw
    by_cases h : acc.isEmpty
    · simp [h] at hw
    · simp [h] at hw
      subst hw
      exact Or.inr (List.mem_reverse.mp hc)
  | cons a l ih =>
    intro acc w c hw hc
    simp only [wordsAux] at hw
    by_cases hws : pyWsChar a
    · simp only [hws, if_true] at hw
      by_cases hacce : acc.isEmpty
      · simp only [hacce, if_true] at hw
        rcases ih [] w c hw hc with h | h
        · exact Or.inl (by simp [h])
        · simp at h
      · simp only [hacce, if_false] at hw
        rcases List.mem_cons.mp hw with h | h
        · subst h; exact Or.inr (List.mem_reverse.mp hc)
        · rcases ih [] w c h hc with h2 | h2
          · exact Or.inl (by simp [h2])
          · simp at h2
    · simp only [hws, Bool.false_eq_true, if_false] at hw
      rcases ih (a :: acc) w c hw hc with h | h
      · exact Or.inl (by simp [h])
      · rcases List.mem_cons.mp h with h2 | h2
        · exact Or.inl (by simp [h2])
        · exact Or.inr h2

/-- Dropping a whitespace prefix of a list whose head is not whitespace
does nothing. -/
theorem dropWhile_of_head (p : Char → Bool) (c : Char) (t : List Char) (hc : p c = false) :
    List.dropWhile p (c :: t) = c :: t := by
  simp [List.dropWhile, hc]

/-- `dropWhile` commutes over a final element that fails the predicate. -/
theorem dropWhile_append_last (p : Char → Bool) (c : Char) (hc : p c = false) :
    ∀ xs : List Char, List.dropWhile p (xs ++ [c]) = List.dropWhile p xs ++ [c] := by
  intro xs
  induction xs with
  | nil => simp [List.dropWhile, hc]
  | cons x xs ih =>
    by_cases hx : p x
    · simp [List.dropWhile, hx, ih]
    · simp [List.dropWhile, hx]

/-- Stripping a list with non-whitespace first and last characters does
nothing. -/
theorem stripBy_of_ends (p : Char → Bool) (c d : Char) (m : List Char)
    (hc : p c = false) (hd : p d = false) :
    stripBy p (c :: m ++ [d]) = c :: m ++ [d] := by
  unfold stripBy
  rw [show (c :: m ++ [d]) = (c :: m) ++ [d] by simp,
      dropWhile_append_last p d hd (c :: m),
      dropWhile_of_head p c m hc]
  rw [show (c :: m) ++ [d] = c :: (m ++ [d]) by simp, List.reverse_cons]
  rw [show (m ++ [d]).reverse ++ [c] = (m ++ [d]).reverse ++ [c] from rfl]
  rw [dropWhile_append_last p c hc]
  rw [show (m ++ [d]).reverse = d :: m.reverse by simp]
  rw [dropWhile_of_head p d _ hd]
  simp

/-- Stripping a one-character list with a non-whitespace character. -/
theorem stripBy_single (p : Char → Bool) (c : Char) (hc : p c = false) :
    stripBy p [c] = [c] := by
  unfold stripBy
  rw [dropWhile_of_head p c [] hc]
  simp [List.dropWhile, hc]

/-- A list without PUA characters is unchanged by the PUA filter. -/
theorem filterPUA_eq_self (l : List Char) (h : ∀ c ∈ l, isPUA c = false) :
    l.filter (fun c => !isPUA c) = l := by
  rw [List.filter_eq_self]
  intro a ha
  simp [h a ha]

/-- The words of the cleaning pipeline are non-empty and whitespace-free. -/
theorem pyWords_sound (l : List Char) :
    ∀ w ∈ pyWords l, w ≠ [] ∧ ∀ c ∈ w, pyWsChar c = false :=
  wordsAux_sound l [] (by simp)

/-- Stripping whitespace from the join of non-empty whitespace-free words
does nothing. -/
theorem stripBy_joinSp (ws : List (List Char))
    (h : ∀ w ∈ ws, w ≠ [] ∧ ∀ c ∈ w, pyWsChar c = false) :
    stripBy pyWsChar (joinSp ws) = joinSp ws := by
  unfold stripBy
  have front : ∀ (vs : List (List Char)),
      (∀ w ∈ vs, w ≠ [] ∧ ∀ c ∈ w, pyWsChar c = false) →
      List.dropWhile pyWsChar (joinSp vs) = joinSp vs := by
    intro vs hvs
    cases vs with
    | nil => rfl
    | cons w ws' =>
      obtain ⟨hne, hns⟩ := hvs w (by simp)
      obtain ⟨r, hr⟩ := joinSp_cons w ws'
      cases w with
      | nil => exact absurd rfl hne
      | cons c t =>
        rw [hr]
        exact dropWhile_of_head pyWsChar c (t ++ r) (hns c (by simp))
  rw [front ws h, joinSp_reverse ws]
  have hrevs : ∀ w ∈ (ws.map List.reverse).reverse,
      w ≠ [] ∧ ∀ c ∈ w, pyWsChar c = false := by
    intro w hw
    rw [List.mem_reverse, List.mem_map] at hw
    obtain ⟨u, hu, huw⟩ := hw
    obtain ⟨hne, hns⟩ := h u hu
    subst huw
    constructor
    · simpa using hne
    · intro c hc
      exact hns c (List.mem_reverse.mp hc)
  rw [front _ hrevs, ← joinSp_reverse ws]
  simp

/-- The core of `clean_text` is idempotent on list contents. -/
theorem cleanL_idem (l : List Char) : cleanL (cleanL l) = cleanL l := by
  have hw := pyWords_sound (l.filter (fun c => !isPUA c))
  have hstrip := stripBy_joinSp _ hw
  have hclean : cleanL l = joinSp (pyWords (l.filter (fun c => !isPUA c))) := by
    unfold cleanL
    exact hstrip
  have hnopua : ∀ c ∈ joinSp (pyWords (l.filter (fun c => !isPUA c))), isPUA c = false := by
    intro c hc
    rcases mem_joinSp _ c hc with h | ⟨w, hwmem, hcw⟩
    · subst h; decide
    · have hcl : c ∈ l.filter (fun c => !isPUA c) := by
        rcases mem_wordsAux _ [] w c hwmem hcw with h | h
        · exact h
        · simp at h
      have := List.of_mem_filter hcl
      simpa using this
  rw [hclean]
  unfold cleanL
  rw [filterPUA_eq_self _ hnopua, pyWords_joinSp _ hw]
  exact hstrip

/-- `clean_text` output never contains whitespace other than single
separating spaces; in particular its head, when the input starts with a
non-whitespace non-PUA character, is that character. -/
theorem cleanL_head (c : Char) (t : List Char)
    (hws : pyWsChar c = false) (hpua : isPUA c = false) :
    ∃ u, cleanL (c :: t) = c :: u := by
  unfold cleanL
  have hfil : (c :: t).filter (fun c => !isPUA c) = c :: t.filter (fun c => !isPUA c) := by
    simp [List.filter_cons, hpua]
  rw [hfil]
  have hstep : pyWords (c :: t.filter (fun c => !isPUA c))
      = wordsAux (t.filter (fun c => !isPUA c)) [c] := by
    simp [pyWords, wordsAux, hws]
  rw [hstep]
  have hword : ∀ (m acc : List Char), acc ≠ [] →
      ∃ w rest, wordsAux m acc = (acc.reverse ++ w) :: rest := by
    intro m
    induction m with
    | nil =>
      intro acc hacc
      refine ⟨[], [], ?_⟩
      have hne : acc.isEmpty = false := by
        cases acc with
        | nil => exact absurd rfl hacc
        | cons a l => rfl
      simp [wordsAux, hne]
    | cons a m ih =>
      intro acc hacc
      by_cases ha : pyWsChar a
      · have hne : acc.isEmpty = false := by
          cases acc with
          | nil => exact absurd rfl hacc
          | cons x l => rfl
        refine ⟨[], wordsAux m [], ?_⟩
        simp [wordsAux, ha, hne]
      · obtain ⟨w, rest, hw⟩ := ih (a :: acc) (by simp)
        refine ⟨a :: w, rest, ?_⟩
        simp only [wordsAux, ha, Bool.false_eq_true, if_false]
        rw [hw]
        simp
  obtain ⟨w, rest, hw⟩ := hword (t.filter (fun c => !isPUA c)) [c] (by simp)
  rw [hw]
  simp only [List.reverse_cons, List.reverse_nil, List.nil_append, List.cons_append]
  obtain ⟨r, hr⟩ := joinSp_cons (c :: w) rest
  rw [hr]
  have hall : ∀ u ∈ (c :: w) :: rest, u ≠ [] ∧ ∀ x ∈ u, pyWsChar x = false := by
    have := wordsAux_sound (t.filter (fun c => !isPUA c)) [c]
      (by intro x hx; simp at hx; subst hx; exact hws)
    intro u hu
    refine this u ?_
    rw [hw]
    simpa using hu
  have := stripBy_joinSp ((c :: w) :: rest) hall
  rw [hr] at this
  rw [show (c :: w) ++ r = c :: (w ++ r) by simp] at this ⊢
  exact ⟨w ++ r, this⟩

/-- C5 counterexample: `clean_text` is NOT idempotent on the code.  The
one-space string is truthy in Python, normalizes to the empty string, and
renormalizing the empty string yields the sentinel `"N/A"` instead. -/
theorem c5_clean_text_not_idempotent :
    clean_text " " = "" ∧ clean_text (clean_text " ") = "N/A" ∧
    clean_text (clean_text " ") ≠ clean_text " " := by
  refine ⟨rfl, rfl, ?_⟩
  decide

/-- C5 amended: `clean_text` is idempotent on every string whose
normalization is non-empty; only non-empty strings consisting purely of
whitespace and Private-Use-Area characters (which normalize to `""`)
renormalize differently, to `"N/A"`. -/
theorem c5_clean_text_idem (s : String) (h : clean_text s ≠ "") :
    clean_text (clean_text s) = clean_text s := by
  unfold clean_text cleanLText at *
  by_cases hd : s.data.isEmpty
  · simp only [hd, if_true]
    rfl
  · simp only [hd, Bool.false_eq_true, if_false] at *
    have hne : (cleanL s.data).isEmpty = false := by
      cases hcl : cleanL s.data with
      | nil =>
        exfalso
        apply h
        show String.mk (cleanL s.data) = ""
        rw [hcl]
      | cons a l => rfl
    show String.mk (if (String.mk (cleanL s.data)).data.isEmpty = true then naL
      else cleanL (String.mk (cleanL s.data)).data) = String.mk (cleanL s.data)
    simp only [show (String.mk (cleanL s.data)).data = cleanL s.data from rfl, hne,
      Bool.false_eq_true, if_false]
    rw [cleanL_idem]

/-- C5 witness: a concrete non-degenerate string on which the amended
idempotence theorem applies. -/
theorem c5_clean_text_idem_witness :
    clean_text "  4.5  stars " ≠ "" ∧
    clean_text (clean_text "  4.5  stars ") = clean_text "  4.5  stars " :=
  ⟨by decide, c5_clean_text_idem "  4.5  stars " (by decide)⟩

/-- The input bundle of spec Scenario 1 (claim C1): the three info
fragments joined with `" · "`, a present name, and the JS-extracted
rating and review texts the scenario presumes. -/
def c1_item : ItemData :=
  { name := some "Luigi Pizzeria"
    rating_text := some "4.5"
    reviews_text := some "(1,234)"
    website_url := none
    info_texts := ["4.5 stars", "(1,234)", "£20–30 · Italian · 221B Baker Street, London"] }

/-- C1 (code bug): on the Scenario-1 bundle the code yields rating `"4.5"`,
reviews `"(1,234)"` and price `"£20–30"` as claimed, but type `"N/A"`
(the keyword pattern `r'\\b{}\\b'` demands LITERAL backslash-b around the
keyword, contradicting the adjacent comment about word boundaries, so
`Italian` is never matched) and consequently the address keeps the
leftovers: `"stars · · Italian · 221B Baker Street, London"` instead of
`"221B Baker Street, London"`. -/
theorem c1_scenario1_observed :
    parseItem c1_item = some
      { name := "Luigi Pizzeria"
        rating := "4.5"
        reviews := "(1,234)"
        price_str := "£20–30"
        place_type := "N/A"
        address := "stars · · Italian · 221B Baker Street, London"
        phone_number := "N/A"
        website_url := some "N/A" } := by
  rfl

/-- An extraction state holding only a working text. -/
def mkWorking (w : String) : ExtState :=
  { working := w.data, price_str := naL, place_type := naL,
    address := naL, phone_number := naL, website_url := none }

/-- C2 (code bug): the type pass does NOT match the keyword `Italian` in a
working text consisting exactly of the word `Italian` — the compiled
pattern requires a literal `\b` on both sides, so the canonical keyword
matching claimed by the spec never fires on normal text; a text that does
contain literal `\bItalian\b` matches, stores the canonical spelling, and
has the span (backslashes included) removed. -/
theorem c2_type_pass_observed :
    (stType (mkWorking "Italian")).place_type = "N/A".data ∧
    (stType (mkWorking "Italian")).working = "Italian".data ∧
    (stType (mkWorking "x \\bitalian\\b y")).place_type = "Italian".data ∧
    (stType (mkWorking "x \\bitalian\\b y")).working = "x  y".data := by
  refine ⟨rfl, rfl, rfl, rfl⟩

/-- The bundle of the C4 counterexample: no JS rating span, but an info
text containing the well-formed `D.D` substring `3.7`. -/
def c4_item : ItemData :=
  { name := some "Foo Bar", rating_text := none, reviews_text := none,
    website_url := none, info_texts := ["3.7 stars"] }

/-- C4 counterexample: the rating field does NOT come from the info text.
With no rating ARIA label, the record's rating is `"N/A"` although the
info text contains the first `D.D` substring `"3.7"`; the substring is
also not removed — it survives into the address field. -/
theorem c4_rating_not_from_info :
    (parseItem c4_item).map (fun r => r.rating) = some "N/A" ∧
    (ddFirst (fullInfo c4_item.info_texts)).map String.mk = some "3.7" ∧
    (parseItem c4_item).map (fun r => r.address) = some "3.7 stars" ∧
    ("N/A" : String) ≠ "3.7" := by
  refine ⟨rfl, rfl, rfl, by decide⟩

/-- The bundle of the C9 counterexample: a valid name and no website link. -/
def c9_item : ItemData :=
  { name := some "Cafe Uno", rating_text := none, reviews_text := none,
    website_url := none, info_texts := ["5 Elm St"] }

/-- C9 counterexample: if a failure interrupts the guarded block before the
website defaulting at line 329 (here: before any stage ran), the appended
record's website field is Python `None` (modelled `none`), not the
sentinel `"N/A"` — so not every undetermined field remains `"N/A"`. -/
theorem c9_fault_website_not_sentinel :
    (parseItemF c9_item 0).map (fun r => r.website_url) = some none ∧
    (none : Option String) ≠ some "N/A" := by
  refine ⟨rfl, by decide⟩

/-- C8: if the result feed never becomes visible within the top-level
timeout, `scrape_google_maps` returns the empty record list — no partial
records — and, being a total function, raises nothing to the caller. -/
theorem c8_feed_invisible_empty (env : SessionEnv) (h : env.feed_visible = false) :
    scrape_google_maps env = [] := by
  unfold scrape_google_maps
  rw [h]
  rfl

/-- C8 witness: a concrete session whose feed never becomes visible, even
though items would have been extractable. -/
theorem c8_feed_invisible_empty_witness :
    ({ feed_visible := false, counts := fun _ => 3, end_marker := fun _ => false,
       stall_scroll_fail := fun _ => false, main_scroll_fail := fun _ => false,
       items := [{ name := some "Cafe One", rating_text := none, reviews_text := none,
                   website_url := none, info_texts := ["Nice place"] }] } : SessionEnv).feed_visible
      = false ∧
    scrape_google_maps
      { feed_visible := false, counts := fun _ => 3, end_marker := fun _ => false,
        stall_scroll_fail := fun _ => false, main_scroll_fail := fun _ => false,
        items := [{ name := some "Cafe One", rating_text := none, reviews_text := none,
                    website_url := none, info_texts := ["Nice place"] }] } = [] :=
  ⟨rfl, c8_feed_invisible_empty _ rfl⟩



/-- `tierA` changes only the price and the working text. -/
theorem tierA_proj (st : ExtState) :
    (tierA st).place_type = st.place_type ∧ (tierA st).address = st.address ∧
    (tierA st).phone_number = st.phone_number ∧ (tierA st).website_url = st.website_url := by
  unfold tierA
  repeat' split
  all_goals exact ⟨rfl, rfl, rfl, rfl⟩

/-- `tierB` changes only the price and the working text. -/
theorem tierB_proj (st : ExtState) :
    (tierB st).place_type = st.place_type ∧ (tierB st).address = st.address ∧
    (tierB st).phone_number = st.phone_number ∧ (tierB st).website_url = st.website_url := by
  unfold tierB
  repeat' split
  all_goals exact ⟨rfl, rfl, rfl, rfl⟩

/-- `stPhone` changes only the phone number and the working text. -/
theorem stPhone_proj (orig : List Char) (st : ExtState) :
    (stPhone orig st).place_type = st.place_type ∧ (stPhone orig st).address = st.address ∧
    (stPhone orig st).price_str = st.price_str ∧ (stPhone orig st).website_url = st.website_url := by
  unfold stPhone
  repeat' split
  all_goals exact ⟨rfl, rfl, rfl, rfl⟩

/-- `tryTypes` changes only the type and the working text, and on change
stores one of the candidate keywords. -/
theorem tryTypes_proj : ∀ (ks : List (List Char)) (st : ExtState),
    ((tryTypes ks st).place_type = st.place_type ∨ (tryTypes ks st).place_type ∈ ks) ∧
    (tryTypes ks st).address = st.address ∧
    (tryTypes ks st).price_str = st.price_str ∧
    (tryTypes ks st).phone_number = st.phone_number ∧
    (tryTypes ks st).website_url = st.website_url := by
  intro ks
  induction ks with
  | nil => intro st; exact ⟨Or.inl rfl, rfl, rfl, rfl, rfl⟩
  | cons k ks ih =>
    intro st
    unfold tryTypes
    split
    · exact ⟨Or.inr (by simp), rfl, rfl, rfl, rfl⟩
    · obtain ⟨h1, h2, h3, h4, h5⟩ := ih st
      refine ⟨?_, h2, h3, h4, h5⟩
      rcases h1 with h | h
      · exact Or.inl h
      · exact Or.inr (by simp [h])

/-- `stAddress` changes only the address, and on change either to the
sentinel or to a non-empty value of length at least 5. -/
theorem stAddress_proj (st : ExtState) :
    ((stAddress st).address = st.address ∨ (stAddress st).address = naL ∨
      ((stAddress st).address ≠ [] ∧ 5 ≤ (stAddress st).address.length)) ∧
    (stAddress st).place_type = st.place_type ∧
    (stAddress st).price_str = st.price_str ∧
    (stAddress st).phone_number = st.phone_number ∧
    (stAddress st).website_url = st.website_url ∧
    (stAddress st).working = st.working := by
  unfold stAddress
  split
  · exact ⟨Or.inl rfl, rfl, rfl, rfl, rfl, rfl⟩
  · refine ⟨?_, rfl, rfl, rfl, rfl, rfl⟩
    dsimp only
    split
    · exact Or.inr (Or.inl rfl)
    · rename_i hc
      push_neg at hc
      exact Or.inr (Or.inr ⟨hc.1, by omega⟩)

/-- The sanity pass leaves the working text, price and phone unchanged. -/
theorem stSanity_proj (st : ExtState) :
    (stSanity st).price_str = st.price_str ∧
    (stSanity st).phone_number = st.phone_number ∧
    (stSanity st).working = st.working :=
  ⟨rfl, rfl, rfl⟩

/-- Members of `descList run lo` lie between `lo` and `run`. -/
theorem descList_mem (run lo n : Nat) (h : n ∈ descList run lo) : lo ≤ n ∧ n ≤ run := by
  unfold descList at h
  rw [List.mem_map] at h
  obtain ⟨i, hi, hn⟩ := h
  rw [List.mem_range] at hi
  omega

/-- A successful `tryLens` call comes from one of the candidate drops. -/
theorem tryLens_some : ∀ (cands : List Nat) (k : List Char → Option (List Char))
    (l : List Char) (res : List Char), tryLens k l cands = some res →
    ∃ n ∈ cands, k (l.drop n) = some res := by
  intro cands
  induction cands with
  | nil => intro k l res h; simp [tryLens] at h
  | cons n ns ih =>
    intro k l res h
    unfold tryLens at h
    cases hk : k (l.drop n) with
    | some r =>
      rw [hk] at h
      exact ⟨n, by simp, by simp [hk, ← h]⟩
    | none =>
      rw [hk] at h
      obtain ⟨m, hm, hkm⟩ := ih k l res h
      exact ⟨m, by simp [hm], hkm⟩

/-- The matcher only consumes input: if the continuation never lengthens
the remainder, neither does the whole match. -/
theorem matchRE_le : ∀ (r : RE) (l : List Char) (k : List Char → Option (List Char))
    (res : List Char),
    (∀ l' res', k l' = some res' → res'.length ≤ l'.length) →
    matchRE r l k = some res → res.length ≤ l.length := by
  intro r
  induction r with
  | eps => intro l k res hk h; exact hk l res h
  | cls p =>
    intro l k res hk h
    cases l with
    | nil => simp [matchRE] at h
    | cons c cs =>
      unfold matchRE at h
      by_cases hp : p c
      · rw [if_pos hp] at h
        have := hk cs res h
        simp only [List.length_cons]
        omega
      · rw [if_neg hp] at h
        exact absurd h (by simp)
  | seq a b iha ihb =>
    intro l k res hk h
    unfold matchRE at h
    refine iha l _ res ?_ h
    intro l' res' h'
    exact ihb l' k res' hk h'
  | alt a b iha ihb =>
    intro l k res hk h
    unfold matchRE at h
    cases ha : matchRE a l k with
    | some r => rw [ha] at h; exact iha l k res hk (by rw [ha, ← h])
    | none => rw [ha] at h; exact ihb l k res hk h
  | opt a iha =>
    intro l k res hk h
    unfold matchRE at h
    cases ha : matchRE a l k with
    | some r => rw [ha] at h; exact iha l k res hk (by rw [ha, ← h])
    | none => rw [ha] at h; exact hk l res h
  | rep p lo hi =>
    intro l k res hk h
    unfold matchRE at h
    by_cases hr : leadRun p hi l < lo
    · rw [if_pos hr] at h; exact absurd h (by simp)
    · rw [if_neg hr] at h
      obtain ⟨n, _, hkn⟩ := tryLens_some _ k l res h
      have := hk _ res hkn
      have hd : (l.drop n).length ≤ l.length := by
        rw [List.length_drop]; omega
      omega

/-- A match of a sequence headed by a character class exposes the head. -/
theorem matchRE_seq_cls (p : Char → Bool) (r : RE) (l : List Char)
    (k : List Char → Option (List Char)) (res : List Char)
    (h : matchRE (.seq (.cls p) r) l k = some res) :
    ∃ c t, l = c :: t ∧ p c = true ∧ matchRE r t k = some res := by
  unfold matchRE at h
  cases l with
  | nil => simp [matchRE] at h
  | cons c t =>
    show ∃ c' t', c :: t = c' :: t' ∧ p c' = true ∧ _
    unfold matchRE at h
    by_cases hp : p c
    · rw [if_pos hp] at h
      exact ⟨c, t, rfl, hp, h⟩
    · rw [if_neg hp] at h
      exact absurd h (by simp)

/-- A positive-length consequence: matching a class-headed sequence from
the start yields a match length of at least 1 and exposes the head. -/
theorem matchLen_seq_cls (p : Char → Bool) (r : RE) (l : List Char) (n : Nat)
    (h : matchLen (.seq (.cls p) r) l = some n) :
    ∃ c t, l = c :: t ∧ p c = true ∧ 1 ≤ n := by
  unfold matchLen at h
  cases hm : matchRE (.seq (.cls p) r) l some with
  | none => rw [hm] at h; simp at h
  | some rem =>
    rw [hm] at h
    simp only [Option.map_some', Option.some_inj] at h
    obtain ⟨c, t, hl, hp, hrest⟩ := matchRE_seq_cls p r l some rem hm
    have hle : rem.length ≤ t.length :=
      matchRE_le r t some rem (by intro l' res' h'; simp only [Option.some_inj] at h'; subst h'; exact Nat.le_refl _) hrest
    refine ⟨c, t, hl, hp, ?_⟩
    subst hl
    simp only [List.length_cons] at h
    omega

/-- Matching a repetition with a positive minimum exposes a satisfying
head character. -/
theorem matchRE_rep_head (p : Char → Bool) (lo : Nat) (hi : Option Nat) (l : List Char)
    (k : List Char → Option (List Char)) (res : List Char)
    (hlo : 1 ≤ lo) (h : matchRE (.rep p lo hi) l k = some res) :
    ∃ c t, l = c :: t ∧ p c = true := by
  unfold matchRE at h
  by_cases hr : leadRun p hi l < lo
  · rw [if_pos hr] at h; exact absurd h (by simp)
  · rw [if_neg hr] at h
    have hrun : 1 ≤ leadRun p hi l := by omega
    cases l with
    | nil => simp [leadRun] at hrun
    | cons c t =>
      refine ⟨c, t, rfl, ?_⟩
      by_contra hp
      simp only [Bool.not_eq_true] at hp
      unfold leadRun at hrun
      cases hi with
      | none => rw [hp] at hrun; simp at hrun
      | some m =>
        cases m with
        | zero => simp at hrun
        | succ m2 => rw [hp] at hrun; simp at hrun

/-- Matching a repetition with positive minimum from the start consumes at
least one character. -/
theorem matchLen_rep_pos (p : Char → Bool) (lo : Nat) (hi : Option Nat) (l : List Char)
    (n : Nat) (hlo : 1 ≤ lo) (h : matchLen (.rep p lo hi) l = some n) :
    ∃ c t, l = c :: t ∧ p c = true ∧ 1 ≤ n := by
  unfold matchLen at h
  cases hm : matchRE (.rep p lo hi) l some with
  | none => rw [hm] at h; simp at h
  | some rem =>
    rw [hm] at h
    simp only [Option.map_some', Option.some_inj] at h
    obtain ⟨c, t, hl, hp⟩ := matchRE_rep_head p lo hi l some rem hlo hm
    unfold matchRE at hm
    by_cases hr : leadRun p hi l < lo
    · rw [if_pos hr] at hm; exact absurd hm (by simp)
    · rw [if_neg hr] at hm
      obtain ⟨n0, hn0, hkn⟩ := tryLens_some _ some l rem hm
      obtain ⟨hlo0, _⟩ := descList_mem _ _ _ hn0
      simp only [Option.some_inj] at hkn
      refine ⟨c, t, hl, hp, ?_⟩
      subst hl
      have : rem.length = (c :: t).length - n0 := by rw [← hkn, List.length_drop]
      simp only [List.length_cons] at this h
      omega

/-- A successful search at start index `j` is a match at some offset. -/
theorem searchAux_spec : ∀ (l : List Char) (r : RE) (j i n : Nat),
    searchAux r l j = some (i, n) →
    ∃ m, i = j + m ∧ matchLen r (l.drop m) = some n := by
  intro l
  induction l with
  | nil =>
    intro r j i n h
    unfold searchAux at h
    cases hm : matchLen r [] with
    | none => rw [hm] at h; simp at h
    | some n0 =>
      rw [hm] at h
      simp only [Option.some_inj, Prod.mk.injEq] at h
      exact ⟨0, by omega, by simpa [← h.2] using hm⟩
  | cons c cs ih =>
    intro r j i n h
    unfold searchAux at h
    cases hm : matchLen r (c :: cs) with
    | some n0 =>
      rw [hm] at h
      simp only [Option.some_inj, Prod.mk.injEq] at h
      exact ⟨0, by omega, by simp [← h.1, ← h.2, hm]⟩
    | none =>
      rw [hm] at h
      obtain ⟨m, him, hlen⟩ := ih r (j + 1) i n h
      exact ⟨m + 1, by omega, by simpa using hlen⟩

/-- `re.search` soundness: the reported span is a match at its start. -/
theorem searchRE_spec (r : RE) (l : List Char) (i n : Nat)
    (h : searchRE r l = some (i, n)) : matchLen r (l.drop i) = some n := by
  obtain ⟨m, him, hlen⟩ := searchAux_spec l r 0 i n h
  subst him
  simpa using hlen

/-- Enumerate the currency symbols. -/
theorem symChar_cases (c : Char) (h : symChar c = true) :
    c = '£' ∨ c = '$' ∨ c = '€' ∨ c = '₹' ∨ c = '¥' ∨ c = '฿' := by
  simp only [symChar, Bool.or_eq_true, decide_eq_true_eq] at h
  tauto

/-- Currency symbols are neither whitespace nor PUA characters nor `'N'`. -/
theorem symChar_props (c : Char) (h : symChar c = true) :
    pyWsChar c = false ∧ isPUA c = false ∧ c ≠ 'N' := by
  rcases symChar_cases c h with rfl | rfl | rfl | rfl | rfl | rfl <;>
    exact ⟨by decide, by decide, by decide⟩

/-- `clean_text` keeps a leading non-whitespace non-PUA character. -/
theorem cleanLText_cons_head (c : Char) (X : List Char)
    (hws : pyWsChar c = false) (hpua : isPUA c = false) :
    ∃ u, cleanLText (c :: X) = c :: u := by
  unfold cleanLText
  simp only [List.isEmpty_cons, Bool.false_eq_true, if_false]
  exact cleanL_head c X hws hpua

/-- Tier A either keeps the price or sets it to a symbol-headed value. -/
theorem tierA_price (st : ExtState) :
    (tierA st).price_str = st.price_str ∨
    ∃ c u, (tierA st).price_str = c :: u ∧ symChar c = true := by
  unfold tierA
  split
  · rename_i i n heq
    split
    · rename_i m heq2
      right
      have hb : matchLen broadRE (st.working.drop i) = some n := searchRE_spec _ _ _ _ heq
      obtain ⟨c, t, hdrop, hsym, hn⟩ :=
        matchLen_seq_cls symChar (.seq (.rep pyWsChar 0 none) (.rep broadChar 1 none)) _ _ hb
      have hseg : segL st.working i n = c :: (t.take (n - 1)) := by
        unfold segL
        rw [hdrop]
        obtain ⟨n', rfl⟩ : ∃ n', n = n' + 1 := ⟨n - 1, by omega⟩
        simp [List.take_succ_cons]
      obtain ⟨c2, t2, hpot, hsym2, hm⟩ :=
        matchLen_seq_cls symChar
          (.seq (.rep pyWsChar 0 none)
            (.seq (.alt (.seq (.rep digDotComma 1 none)
               (.opt (.seq (.cls dashChar) (.rep digDotComma 1 none))))
               (.rep symChar 0 (some 2)))
            (.opt (.cls (fun x => x = '+'))))) _ _ heq2
      have htake : (segL st.working i n).take m = c :: ((t.take (n - 1)).take (m - 1)) := by
        rw [hseg]
        obtain ⟨m', rfl⟩ : ∃ m', m = m' + 1 := ⟨m - 1, by omega⟩
        simp [List.take_succ_cons]
      obtain ⟨hws, hpua, _⟩ := symChar_props c hsym
      obtain ⟨u, hu⟩ := cleanLText_cons_head c ((t.take (n - 1)).take (m - 1)) hws hpua
      refine ⟨c, u, ?_, hsym⟩
      dsimp only
      rw [htake, hu]
    · exact Or.inl rfl
  · exact Or.inl rfl

/-- Tier B either keeps the price or sets it to a symbol-headed value. -/
theorem tierB_price (st : ExtState) :
    (tierB st).price_str = st.price_str ∨
    ∃ c u, (tierB st).price_str = c :: u ∧ symChar c = true := by
  unfold tierB
  split
  · split
    · rename_i i n heq
      right
      have hb : matchLen symRE (st.working.drop i) = some n := searchRE_spec _ _ _ _ heq
      obtain ⟨c, t, hdrop, hsym, hn⟩ := matchLen_rep_pos symChar 1 (some 4) _ _ (by omega) hb
      have hseg : segL st.working i n = c :: (t.take (n - 1)) := by
        unfold segL
        rw [hdrop]
        obtain ⟨n', rfl⟩ : ∃ n', n = n' + 1 := ⟨n - 1, by omega⟩
        simp [List.take_succ_cons]
      obtain ⟨hws, hpua, _⟩ := symChar_props c hsym
      obtain ⟨u, hu⟩ := cleanLText_cons_head c (t.take (n - 1)) hws hpua
      refine ⟨c, u, ?_, hsym⟩
      dsimp only
      rw [hseg, hu]
    · exact Or.inl rfl
  · exact Or.inl rfl

/-- The phone pass either keeps the phone or sets it to a `'+'`-headed
value. -/
theorem stPhone_phone (orig : List Char) (st : ExtState) :
    (stPhone orig st).phone_number = st.phone_number ∨
    ∃ u, (stPhone orig st).phone_number = '+' :: u := by
  unfold stPhone
  split
  · rename_i i n heq
    right
    have hb : matchLen phoneRE (orig.drop i) = some n := searchRE_spec _ _ _ _ heq
    obtain ⟨c, t, hdrop, hplus, hn⟩ :=
      matchLen_seq_cls (fun x => x = '+') _ _ _ hb
    have hc : c = '+' := by simpa using hplus
    subst hc
    have hseg : segL orig i n = '+' :: (t.take (n - 1)) := by
      unfold segL
      rw [hdrop]
      obtain ⟨n', rfl⟩ : ∃ n', n = n' + 1 := ⟨n - 1, by omega⟩
      simp [List.take_succ_cons]
    obtain ⟨u, hu⟩ := cleanLText_cons_head '+' (t.take (n - 1)) (by decide) (by decide)
    refine ⟨u, ?_⟩
    dsimp only
    rw [hseg, hu]
  · exact Or.inl rfl

/-- Invariant maintained over the guarded extraction stages: each guarded
field is either the sentinel or a well-shaped extracted value. -/
def StInv (st : ExtState) : Prop :=
  (st.price_str = naL ∨ ∃ c u, st.price_str = c :: u ∧ symChar c = true) ∧
  (st.phone_number = naL ∨ ∃ u, st.phone_number = '+' :: u) ∧
  (st.place_type = naL ∨ st.place_type ∈ known_types) ∧
  (st.address = naL ∨ (st.address ≠ [] ∧ 5 ≤ st.address.length))

/-- The sanity-pass type is the sentinel or the incoming type. -/
theorem sanityType_cases (t a : List Char) :
    sanityType t a = naL ∨ sanityType t a = t := by
  unfold sanityType
  split
  · exact Or.inl rfl
  · split
    · exact Or.inl rfl
    · exact Or.inr rfl

/-- The sanity-pass address is the sentinel or the incoming address. -/
theorem sanityAddr_cases (a : List Char) :
    sanityAddr a = naL ∨ sanityAddr a = a := by
  unfold sanityAddr
  split
  · exact Or.inl rfl
  · exact Or.inr rfl

/-- Every guarded stage preserves the state invariant. -/
theorem applyStage_inv (orig rating reviews : List Char) (i : Nat) (st : ExtState)
    (h : StInv st) : StInv (applyStage orig rating reviews i st) := by
  obtain ⟨hp, hph, ht, ha⟩ := h
  match i with
  | 0 =>
    show StInv (stRemoveRating rating st)
    unfold stRemoveRating
    split <;> exact ⟨hp, hph, ht, ha⟩
  | 1 =>
    show StInv (stRemoveReviews reviews st)
    unfold stRemoveReviews
    split <;> exact ⟨hp, hph, ht, ha⟩
  | 2 => exact ⟨hp, hph, ht, ha⟩
  | 3 =>
    show StInv (stPrice st)
    obtain ⟨ha1, ha2, ha3, ha4⟩ := tierA_proj st
    obtain ⟨hb1, hb2, hb3, hb4⟩ := tierB_proj (tierA st)
    refine ⟨?_, ?_, ?_, ?_⟩
    · rcases tierB_price (tierA st) with h | h
      · rw [show stPrice st = tierB (tierA st) from rfl, h]
        rcases tierA_price st with h2 | h2
        · rw [h2]; exact hp
        · exact Or.inr h2
      · exact Or.inr h
    · show (stPrice st).phone_number = naL ∨ _
      rw [show (stPrice st).phone_number = st.phone_number from by rw [show stPrice st = tierB (tierA st) from rfl, hb3, ha3]]
      exact hph
    · show (stPrice st).place_type = naL ∨ _
      rw [show (stPrice st).place_type = st.place_type from by rw [show stPrice st = tierB (tierA st) from rfl, hb1, ha1]]
      exact ht
    · show (stPrice st).address = naL ∨ _
      rw [show (stPrice st).address = st.address from by rw [show stPrice st = tierB (tierA st) from rfl, hb2, ha2]]
      exact ha
  | 4 =>
    show StInv (stPhone orig st)
    obtain ⟨h1, h2, h3, h4⟩ := stPhone_proj orig st
    refine ⟨by rw [h3]; exact hp, ?_, by rw [h1]; exact ht, by rw [h2]; exact ha⟩
    rcases stPhone_phone orig st with h | h
    · rw [h]; exact hph
    · exact Or.inr h
  | 5 => exact ⟨hp, hph, ht, ha⟩
  | 6 =>
    show StInv (stType st)
    obtain ⟨h1, h2, h3, h4, h5⟩ := tryTypes_proj known_types st
    refine ⟨by rw [show (stType st).price_str = st.price_str from h3]; exact hp,
            by rw [show (stType st).phone_number = st.phone_number from h4]; exact hph, ?_,
            by rw [show (stType st).address = st.address from h2]; exact ha⟩
    rcases h1 with h | h
    · rw [show (stType st).place_type = st.place_type from h]; exact ht
    · exact Or.inr h
  | 7 => exact ⟨hp, hph, ht, ha⟩
  | 8 =>
    show StInv (stAddress st)
    obtain ⟨h1, h2, h3, h4, h5, h6⟩ := stAddress_proj st
    refine ⟨by rw [h3]; exact hp, by rw [h4]; exact hph, by rw [h2]; exact ht, ?_⟩
    rcases h1 with h | h | h
    · rw [h]; exact ha
    · exact Or.inl h
    · exact Or.inr h
  | 9 =>
    show StInv (stSanity st)
    obtain ⟨h1, h2, h3⟩ := stSanity_proj st
    refine ⟨by rw [h1]; exact hp, by rw [h2]; exact hph, ?_, ?_⟩
    · have hT : (stSanity st).place_type = sanityType st.place_type st.address := rfl
      rw [hT]
      rcases sanityType_cases st.place_type st.address with h | h
      · rw [h]; exact Or.inl rfl
      · rw [h]; exact ht
    · have hA : (stSanity st).address = sanityAddr st.address := rfl
      rw [hA]
      rcases sanityAddr_cases st.address with h | h
      · rw [h]; exact Or.inl rfl
      · rw [h]; exact ha
  | (m + 10) =>
    show StInv st
    exact ⟨hp, hph, ht, ha⟩

/-- Unfold one stage of the stage runner. -/
theorem runStages_succ (orig rating reviews : List Char) (n : Nat) (st : ExtState) :
    runStages orig rating reviews (n + 1) st =
      applyStage orig rating reviews n (runStages orig rating reviews n st) := by
  unfold runStages
  rw [List.range_succ, List.foldl_append]
  rfl

/-- The stage runner preserves the state invariant. -/
theorem runStages_inv (orig rating reviews : List Char) (st : ExtState) (h : StInv st) :
    ∀ n, StInv (runStages orig rating reviews n st) := by
  intro n
  induction n with
  | zero => exact h
  | succ n ih =>
    rw [runStages_succ]
    exact applyStage_inv orig rating reviews n _ ih

/-- Python `x or "N/A"` never yields the empty string. -/
theorem pyOrNA_ne_empty (o : Option String) : pyOrNA o ≠ "" := by
  cases o with
  | none => decide
  | some s =>
    show (if s = "" then "N/A" else s) ≠ ""
    split
    · decide
    · assumption

/-- The reviews normalization never yields the empty string. -/
theorem jsReviews_ne_empty (o : Option String) : jsReviews o ≠ "" := by
  show (if cleanTextOpt o = "" then "N/A" else cleanTextOpt o) ≠ ""
  split
  · decide
  · assumption

/-- A string built from a non-empty character list is non-empty. -/
theorem mk_ne_empty (l : List Char) (h : l ≠ []) : String.mk l ≠ "" := by
  intro heq
  exact h (congrArg String.data heq)

/-- The sentinel is a non-empty character list. -/
theorem naL_ne_nil : naL ≠ [] := by decide

/-- Every canonical category keyword is non-empty. -/
theorem known_types_ne_nil : ∀ k ∈ known_types, k ≠ [] := by decide

/-- C3: every field of every produced record is a non-empty string (a
typed value or exactly the sentinel `"N/A"`), and the website field holds
an actual (non-empty) string — no field is empty or `None`, and the
record structure itself makes every key present. -/
theorem c3_sentinel_fields (d : ItemData) (rec : ListingRecord)
    (h : parseItem d = some rec) :
    rec.name ≠ "" ∧ rec.rating ≠ "" ∧ rec.reviews ≠ "" ∧ rec.price_str ≠ "" ∧
    rec.place_type ≠ "" ∧ rec.address ≠ "" ∧ rec.phone_number ≠ "" ∧
    ∃ w, rec.website_url = some w ∧ w ≠ "" := by
  rw [show parseItem d = parseItemF d numStages from rfl] at h
  unfold parseItemF at h
  dsimp only at h
  by_cases hname : (cleanTextOpt d.name = "" ∨ cleanTextOpt d.name = "N/A")
  · rw [if_pos hname] at h
    exact absurd h (by simp)
  · rw [if_neg hname] at h
    simp only [Option.some_inj] at h
    subst h
    push_neg at hname
    have hinv := runStages_inv (fullInfo d.info_texts) (pyOrNA d.rating_text).data
      (jsReviews d.reviews_text).data
      { working := fullInfo d.info_texts, price_str := naL, place_type := naL,
        address := naL, phone_number := naL, website_url := d.website_url }
      ⟨Or.inl rfl, Or.inl rfl, Or.inl rfl, Or.inl rfl⟩ (Nat.min numStages numStages)
    obtain ⟨hp, hph, ht, ha⟩ := hinv
    refine ⟨hname.1, pyOrNA_ne_empty _, jsReviews_ne_empty _, ?_, ?_, ?_, ?_, ?_⟩
    · rcases hp with hc | ⟨c, u, hc, _⟩ <;>
        exact mk_ne_empty _ (by rw [hc]; simp [naL])
    · rcases ht with hc | hc
      · exact mk_ne_empty _ (by rw [hc]; exact naL_ne_nil)
      · exact mk_ne_empty _ (known_types_ne_nil _ hc)
    · rcases ha with hc | ⟨hc, _⟩
      · exact mk_ne_empty _ (by rw [hc]; exact naL_ne_nil)
      · exact mk_ne_empty _ hc
    · rcases hph with hc | ⟨u, hc⟩ <;>
        exact mk_ne_empty _ (by rw [hc]; simp [naL])
    · rw [show Nat.min numStages numStages = 9 + 1 from rfl, runStages_succ]
      exact ⟨pyOrNA _, rfl, pyOrNA_ne_empty _⟩

/-- A concrete bundle and its record for the C3 witness. -/
def c3_item : ItemData :=
  { name := some "Cafe One", rating_text := none, reviews_text := none,
    website_url := none, info_texts := ["Nice place"] }

/-- C3 witness: the sentinel-field theorem applied to a concrete bundle. -/
theorem c3_sentinel_fields_witness :
    parseItem c3_item = some
      { name := "Cafe One", rating := "N/A", reviews := "N/A", price_str := "N/A",
        place_type := "N/A", address := "Nice place", phone_number := "N/A",
        website_url := some "N/A" } ∧
    ({ name := "Cafe One", rating := "N/A", reviews := "N/A", price_str := "N/A",
        place_type := "N/A", address := "Nice place", phone_number := "N/A",
        website_url := some "N/A" } : ListingRecord).name ≠ "" :=
  ⟨by rfl, (c3_sentinel_fields c3_item _ (by rfl)).1⟩

/-- If the sanity outputs collide, both are the sentinel. -/
theorem sanity_collision (t a : List Char) (h : sanityType t a = sanityAddr a) :
    sanityType t a = naL ∧ sanityAddr a = naL := by
  have hn2 : naL.all Char.isDigit = false := by decide
  have hn1 : ¬ (naL = []) := by decide
  unfold sanityType sanityAddr at h ⊢
  split_ifs at h ⊢ <;> simp_all

/-- The sanity type output is non-empty and not purely numeric. -/
theorem sanityType_shape (t a : List Char) :
    sanityType t a ≠ [] ∧ (sanityType t a).all Char.isDigit = false := by
  have hn2 : naL.all Char.isDigit = false := by decide
  have hn1 : ¬ (naL = []) := by decide
  unfold sanityType
  split_ifs <;> simp_all

/-- The sanity address output is non-empty and not purely numeric. -/
theorem sanityAddr_shape (a : List Char) :
    sanityAddr a ≠ [] ∧ (sanityAddr a).all Char.isDigit = false := by
  have hn2 : naL.all Char.isDigit = false := by decide
  have hn1 : ¬ (naL = []) := by decide
  unfold sanityAddr
  split_ifs <;> simp_all

/-- C6: after the final cross-field sanity pass, a type/address collision
forces both to the sentinel, and neither the type nor the address of a
produced record is empty or purely numeric. -/
theorem c6_type_address_sanity (d : ItemData) (rec : ListingRecord)
    (h : parseItem d = some rec) :
    (rec.place_type = rec.address → rec.place_type = "N/A" ∧ rec.address = "N/A") ∧
    rec.place_type ≠ "" ∧ rec.place_type.data.all Char.isDigit = false ∧
    rec.address ≠ "" ∧ rec.address.data.all Char.isDigit = false := by
  rw [show parseItem d = parseItemF d numStages from rfl] at h
  unfold parseItemF at h
  dsimp only at h
  by_cases hname : (cleanTextOpt d.name = "" ∨ cleanTextOpt d.name = "N/A")
  · rw [if_pos hname] at h
    exact absurd h (by simp)
  · rw [if_neg hname] at h
    simp only [Option.some_inj] at h
    subst h
    rw [show Nat.min numStages numStages = 9 + 1 from rfl, runStages_succ]
    generalize runStages (fullInfo d.info_texts) (pyOrNA d.rating_text).data
      (jsReviews d.reviews_text).data 9
      { working := fullInfo d.info_texts, price_str := naL, place_type := naL,
        address := naL, phone_number := naL, website_url := d.website_url } = S9
    have hA : applyStage (fullInfo d.info_texts) (pyOrNA d.rating_text).data
        (jsReviews d.reviews_text).data 9 S9 = stSanity S9 := rfl
    rw [hA]
    have hT : (stSanity S9).place_type = sanityType S9.place_type S9.address := rfl
    have hAd : (stSanity S9).address = sanityAddr S9.address := rfl
    rw [hT, hAd]
    refine ⟨?_, ?_, ?_, ?_, ?_⟩
    · intro heq
      have hdata : sanityType S9.place_type S9.address = sanityAddr S9.address :=
        congrArg String.data heq
      have hcol := sanity_collision S9.place_type S9.address hdata
      constructor
      · show String.mk (sanityType S9.place_type S9.address) = "N/A"
        rw [hcol.1]
        rfl
      · show String.mk (sanityAddr S9.address) = "N/A"
        rw [hcol.2]
        rfl
    · exact mk_ne_empty _ (sanityType_shape _ _).1
    · exact (sanityType_shape _ _).2
    · exact mk_ne_empty _ (sanityAddr_shape _).1
    · exact (sanityAddr_shape _).2

/-- Concrete bundle for the C6 witness: a purely numeric remainder, so the
address pass first accepts `"12345"` and the sanity pass resets it. -/
def c6_item : ItemData :=
  { name := some "Digit Den", rating_text := none, reviews_text := none,
    website_url := none, info_texts := ["12345"] }

/-- C6 witness: the sanity theorem applied to a concrete bundle whose
remainder address is purely numeric (reset to the sentinel, and the
resulting type/address collision is the both-`"N/A"` case). -/
theorem c6_type_address_sanity_witness :
    parseItem c6_item = some
      { name := "Digit Den", rating := "N/A", reviews := "N/A", price_str := "N/A",
        place_type := "N/A", address := "N/A", phone_number := "N/A",
        website_url := some "N/A" } ∧
    (("N/A" : String) = "N/A" → ("N/A" : String) = "N/A" ∧ ("N/A" : String) = "N/A") :=
  ⟨by rfl, by
    have h := c6_type_address_sanity c6_item
      { name := "Digit Den", rating := "N/A", reviews := "N/A", price_str := "N/A",
        place_type := "N/A", address := "N/A", phone_number := "N/A",
        website_url := some "N/A" } (by rfl)
    exact h.1⟩

/-- A pattern that succeeds under every total continuation. -/
def TotalRE (r : RE) : Prop :=
  ∀ (l : List Char) (k : List Char → Option (List Char)),
    (∀ l', (k l').isSome = true) → (matchRE r l k).isSome = true

/-- `tryLens` succeeds on a non-empty candidate list under a total
continuation. -/
theorem tryLens_isSome (cands : List Nat) (k : List Char → Option (List Char))
    (l : List Char) (hne : cands ≠ []) (hk : ∀ l', (k l').isSome = true) :
    (tryLens k l cands).isSome = true := by
  cases cands with
  | nil => exact absurd rfl hne
  | cons n ns =>
    unfold tryLens
    cases hkn : k (l.drop n) with
    | some r => simp
    | none =>
      have := hk (l.drop n)
      rw [hkn] at this
      simp at this

/-- Zero-minimum repetitions always succeed. -/
theorem total_rep0 (p : Char → Bool) (hi : Option Nat) : TotalRE (.rep p 0 hi) := by
  intro l k hk
  unfold matchRE
  rw [if_neg (by omega)]
  refine tryLens_isSome _ k l ?_ hk
  unfold descList
  intro hnil
  have hlen := congrArg List.length hnil
  simp at hlen

/-- Optional patterns always succeed. -/
theorem total_opt (a : RE) : TotalRE (.opt a) := by
  intro l k hk
  unfold matchRE
  cases ha : matchRE a l k with
  | some r => simp
  | none => exact hk l

/-- Sequencing preserves totality. -/
theorem total_seq (a b : RE) (ta : TotalRE a) (tb : TotalRE b) : TotalRE (.seq a b) := by
  intro l k hk
  unfold matchRE
  exact ta l _ (fun l' => tb l' k hk)

/-- Alternation with a total second branch is total. -/
theorem total_alt_right (a b : RE) (tb : TotalRE b) : TotalRE (.alt a b) := by
  intro l k hk
  unfold matchRE
  cases ha : matchRE a l k with
  | some r => simp
  | none => exact tb l k hk

/-- The clean-price pattern always matches a text that starts with a
currency symbol: its alternation admits the empty string. -/
theorem clean_total (c : Char) (l : List Char) (hc : symChar c = true) :
    (matchLen cleanRE (c :: l)).isSome = true := by
  have htail : TotalRE (.seq (.rep pyWsChar 0 none)
      (.seq (.alt (.seq (.rep digDotComma 1 none)
          (.opt (.seq (.cls dashChar) (.rep digDotComma 1 none))))
          (.rep symChar 0 (some 2)))
        (.opt (.cls (fun x => x = '+'))))) :=
    total_seq _ _ (total_rep0 _ _)
      (total_seq _ _ (total_alt_right _ _ (total_rep0 _ _)) (total_opt _))
  unfold matchLen
  have hm : (matchRE cleanRE (c :: l) some).isSome = true := by
    show (matchRE (.seq (.cls symChar) _) (c :: l) some).isSome = true
    unfold matchRE
    show (matchRE (.cls symChar) (c :: l) _).isSome = true
    unfold matchRE
    rw [if_pos hc]
    exact htail l some (by intro l'; rfl)
  cases hmm : matchRE cleanRE (c :: l) some with
  | none => rw [hmm] at hm; simp at hm
  | some rem => simp

/-- Tier B does not run when the price is already determined. -/
theorem tierB_skip (st : ExtState) (h : st.price_str ≠ naL) : tierB st = st := by
  unfold tierB
  rw [if_neg h]

/-- A symbol-headed list is not the sentinel. -/
theorem sym_head_ne_naL (c : Char) (u : List Char) (hc : symChar c = true) :
    c :: u ≠ naL := by
  intro h
  have : c = 'N' := by injection h
  obtain ⟨_, _, hn⟩ := symChar_props c hc
  exact hn this

/-- C10: whenever the broad tier-A price pattern matches the working text,
the anchored clean re-match also succeeds (the "clean extraction failed"
fall-through is unreachable), tier A stores a non-sentinel price and the
symbol-only tier B is skipped entirely (`stPrice` is tier A alone); and
every non-sentinel price value begins with a currency symbol. -/
theorem c10_price_pass (st : ExtState) (hp : st.price_str = naL) :
    (∀ i n, searchRE broadRE st.working = some (i, n) →
      (matchLen cleanRE (segL st.working i n)).isSome = true ∧
      (tierA st).price_str ≠ naL ∧
      stPrice st = tierA st) ∧
    ((stPrice st).price_str ≠ naL →
      ∃ c u, (stPrice st).price_str = c :: u ∧ symChar c = true) := by
  constructor
  · intro i n hsr
    have hb : matchLen broadRE (st.working.drop i) = some n := searchRE_spec _ _ _ _ hsr
    obtain ⟨c, t, hdrop, hsym, hn⟩ :=
      matchLen_seq_cls symChar (.seq (.rep pyWsChar 0 none) (.rep broadChar 1 none)) _ _ hb
    have hseg : segL st.working i n = c :: (t.take (n - 1)) := by
      unfold segL
      rw [hdrop]
      obtain ⟨n', rfl⟩ : ∃ n', n = n' + 1 := ⟨n - 1, by omega⟩
      simp [List.take_succ_cons]
    have hcleanSome : (matchLen cleanRE (segL st.working i n)).isSome = true := by
      rw [hseg]
      exact clean_total c _ hsym
    refine ⟨hcleanSome, ?_, ?_⟩
    · obtain ⟨m, hm⟩ := Option.isSome_iff_exists.mp hcleanSome
      have h1 : tierA st =
          (match matchLen cleanRE (segL st.working i n) with
           | some m =>
             { st with
               price_str := cleanLText ((segL st.working i n).take m)
               working := remove_match_from_string st.working i n }
           | none => st) := by
        unfold tierA
        rw [hsr]
      rw [hm] at h1
      have h2 : (tierA st).price_str = cleanLText ((segL st.working i n).take m) := by
        rw [h1]
      obtain ⟨c2, t2, hpot, hsym2, hmp⟩ :=
        matchLen_seq_cls symChar
          (.seq (.rep pyWsChar 0 none)
            (.seq (.alt (.seq (.rep digDotComma 1 none)
               (.opt (.seq (.cls dashChar) (.rep digDotComma 1 none))))
               (.rep symChar 0 (some 2)))
            (.opt (.cls (fun x => x = '+'))))) _ _ hm
      have htake : (segL st.working i n).take m = c :: ((t.take (n - 1)).take (m - 1)) := by
        rw [hseg]
        obtain ⟨m', rfl⟩ : ∃ m', m = m' + 1 := ⟨m - 1, by omega⟩
        simp [List.take_succ_cons]
      obtain ⟨hws, hpua, _⟩ := symChar_props c hsym
      obtain ⟨u, hu⟩ := cleanLText_cons_head c _ hws hpua
      rw [h2, htake, hu]
      exact sym_head_ne_naL c u hsym
    · show tierB (tierA st) = tierA st
      apply tierB_skip
      obtain ⟨m, hm⟩ := Option.isSome_iff_exists.mp hcleanSome
      have h1 : tierA st =
          (match matchLen cleanRE (segL st.working i n) with
           | some m =>
             { st with
               price_str := cleanLText ((segL st.working i n).take m)
               working := remove_match_from_string st.working i n }
           | none => st) := by
        unfold tierA
        rw [hsr]
      rw [hm] at h1
      have h2 : (tierA st).price_str = cleanLText ((segL st.working i n).take m) := by
        rw [h1]
      have htake : (segL st.working i n).take m = c :: ((t.take (n - 1)).take (m - 1)) := by
        rw [hseg]
        obtain ⟨c2, t2, hpot, hsym2, hmp⟩ :=
          matchLen_seq_cls symChar
            (.seq (.rep pyWsChar 0 none)
              (.seq (.alt (.seq (.rep digDotComma 1 none)
                 (.opt (.seq (.cls dashChar) (.rep digDotComma 1 none))))
                 (.rep symChar 0 (some 2)))
              (.opt (.cls (fun x => x = '+'))))) _ _ hm
        obtain ⟨m', rfl⟩ : ∃ m', m = m' + 1 := ⟨m - 1, by omega⟩
        simp [List.take_succ_cons]
      obtain ⟨hws, hpua, _⟩ := symChar_props c hsym
      obtain ⟨u, hu⟩ := cleanLText_cons_head c _ hws hpua
      rw [h2, htake, hu]
      exact sym_head_ne_naL c u hsym
  · intro hne
    rcases tierB_price (tierA st) with h | h
    · rcases tierA_price st with h2 | h2
      · exfalso
        apply hne
        show (tierB (tierA st)).price_str = naL
        rw [h, h2, hp]
      · obtain ⟨c, u, hc, hs⟩ := h2
        exact ⟨c, u, by rw [show (stPrice st).price_str = (tierA st).price_str from h, hc], hs⟩
    · exact h

/-- C10 witness: on a concrete working text with a broad price match, the
clean re-match succeeds, tier A yields a non-sentinel price, tier B is
skipped, and the price starts with a currency symbol. -/
theorem c10_price_pass_witness :
    searchRE broadRE (mkWorking "a £20–30 x").working = some (2, 6) ∧
    (matchLen cleanRE (segL (mkWorking "a £20–30 x").working 2 6)).isSome = true ∧
    (tierA (mkWorking "a £20–30 x")).price_str ≠ naL ∧
    stPrice (mkWorking "a £20–30 x") = tierA (mkWorking "a £20–30 x") ∧
    ∃ c u, (stPrice (mkWorking "a £20–30 x")).price_str = c :: u ∧ symChar c = true := by
  have h := c10_price_pass (mkWorking "a £20–30 x") rfl
  have h1 := h.1 2 6 (by rfl)
  refine ⟨by rfl, h1.1, h1.2.1, h1.2.2, h.2 ?_⟩
  rw [h1.2.2]
  exact h1.2.1

/-- First-occurrence removal: `replFirst` splits the text at the leftmost
occurrence of the pattern and splices it out. -/
theorem replFirst_spec : ∀ (l pat : List Char), pat ≠ [] → containsL l pat = true →
    ∃ pre post, l = pre ++ pat ++ post ∧ replFirst l pat = pre ++ post ∧
      ∀ pre2 post2, l = pre2 ++ pat ++ post2 → pre.length ≤ pre2.length := by
  intro l
  induction l with
  | nil =>
    intro pat hne hc
    unfold containsL at hc
    cases pat with
    | nil => exact absurd rfl hne
    | cons p ps => simp [List.isPrefixOf] at hc
  | cons c cs ih =>
    intro pat hne hc
    cases pat with
    | nil => exact absurd rfl hne
    | cons p ps =>
      by_cases hpre : (p :: ps).isPrefixOf (c :: cs) = true
      · obtain ⟨t, ht⟩ := (List.isPrefixOf_iff_prefix.mp hpre)
        refine ⟨[], t, by simp [← ht], ?_, ?_⟩
        · show replFirstAux p ps (c :: cs) = [] ++ t
          unfold replFirstAux
          rw [if_pos hpre]
          have hcs : cs = ps ++ t := by
            have h2 : p :: (ps ++ t) = c :: cs := by simpa using ht
            injection h2 with h3 h4
            exact h4.symm
          rw [hcs, List.drop_left]
          simp
        · intro pre2 post2 _
          simp
      · unfold containsL at hc
        rw [Bool.or_eq_true] at hc
        rcases hc with hc | hc
        · exact absurd hc hpre
        · obtain ⟨pre, post, heq, hrepl, hmin⟩ := ih (p :: ps) hne hc
          refine ⟨c :: pre, post, by simp [heq], ?_, ?_⟩
          · show replFirstAux p ps (c :: cs) = (c :: pre) ++ post
            unfold replFirstAux
            rw [if_neg hpre]
            have : replFirstAux p ps cs = pre ++ post := hrepl
            rw [this]
            simp
          · intro pre2 post2 heq2
            cases pre2 with
            | nil =>
              exfalso
              apply hpre
              rw [List.isPrefixOf_iff_prefix]
              exact ⟨post2, by simpa using heq2.symm⟩
            | cons c2 pre2' =>
              rw [show (c2 :: pre2') ++ (p :: ps) ++ post2 = c2 :: (pre2' ++ (p :: ps) ++ post2) by simp] at heq2
              have h2 : cs = pre2' ++ (p :: ps) ++ post2 := by
                injection heq2
              simpa using Nat.add_le_add_right (hmin pre2' post2 h2) 1

/-- The extraction state after the first `n` guarded stages of one item. -/
def stateAfter (d : ItemData) (n : Nat) : ExtState :=
  runStages (fullInfo d.info_texts) (pyOrNA d.rating_text).data
    (jsReviews d.reviews_text).data n
    { working := fullInfo d.info_texts, price_str := naL, place_type := naL,
      address := naL, phone_number := naL, website_url := d.website_url }

/-- A string differing from another differs in contents. -/
theorem data_ne_of_ne (s t : String) (h : s ≠ t) : s.data ≠ t.data := by
  intro hd
  apply h
  cases s
  cases t
  simp only at hd
  rw [hd]

/-- C4 amended: the rating field equals the JS-supplied rating text (the
sentinel when that is absent or empty) — it is NOT extracted from the info
text; and when that rating value is not the sentinel and occurs verbatim
in the cleaned info text, its FIRST occurrence is spliced out of the
working text used by the later passes. -/
theorem c4_amended_rating (d : ItemData) (rec : ListingRecord)
    (h : parseItem d = some rec) :
    rec.rating = pyOrNA d.rating_text ∧
    (pyOrNA d.rating_text ≠ "N/A" →
      containsL (fullInfo d.info_texts) (pyOrNA d.rating_text).data = true →
      ∃ pre post,
        fullInfo d.info_texts = pre ++ (pyOrNA d.rating_text).data ++ post ∧
        (stateAfter d 1).working = pre ++ post ∧
        ∀ pre2 post2,
          fullInfo d.info_texts = pre2 ++ (pyOrNA d.rating_text).data ++ post2 →
          pre.length ≤ pre2.length) := by
  constructor
  · rw [show parseItem d = parseItemF d numStages from rfl] at h
    unfold parseItemF at h
    dsimp only at h
    by_cases hname : (cleanTextOpt d.name = "" ∨ cleanTextOpt d.name = "N/A")
    · rw [if_pos hname] at h
      exact absurd h (by simp)
    · rw [if_neg hname] at h
      simp only [Option.some_inj] at h
      subst h
      rfl
  · intro hna hcont
    have hne : (pyOrNA d.rating_text).data ≠ [] :=
      data_ne_of_ne _ "" (pyOrNA_ne_empty d.rating_text)
    have hnaL : (pyOrNA d.rating_text).data ≠ naL := data_ne_of_ne _ "N/A" hna
    obtain ⟨pre, post, heq, hrepl, hmin⟩ :=
      replFirst_spec (fullInfo d.info_texts) (pyOrNA d.rating_text).data hne hcont
    refine ⟨pre, post, heq, ?_, hmin⟩
    have h1 : stateAfter d 1 = stRemoveRating (pyOrNA d.rating_text).data
        { working := fullInfo d.info_texts, price_str := naL, place_type := naL,
          address := naL, phone_number := naL, website_url := d.website_url } := rfl
    rw [h1]
    unfold stRemoveRating
    rw [if_pos ⟨hnaL, hcont⟩]
    exact hrepl

/-- The concrete bundle of the C4 witness: JS rating `"4.5"`, occurring
verbatim in the info text. -/
def c4w_item : ItemData :=
  { name := some "Foo Bar", rating_text := some "4.5", reviews_text := none,
    website_url := none, info_texts := ["4.5 stars"] }

/-- C4 witness: the amended rating theorem applied to a concrete bundle. -/
theorem c4_amended_rating_witness :
    parseItem c4w_item = some
      { name := "Foo Bar", rating := "4.5", reviews := "N/A", price_str := "N/A",
        place_type := "N/A", address := "stars", phone_number := "N/A",
        website_url := some "N/A" } ∧
    pyOrNA c4w_item.rating_text ≠ "N/A" ∧
    containsL (fullInfo c4w_item.info_texts) (pyOrNA c4w_item.rating_text).data = true ∧
    ({ name := "Foo Bar", rating := "4.5", reviews := "N/A", price_str := "N/A",
        place_type := "N/A", address := "stars", phone_number := "N/A",
        website_url := some "N/A" } : ListingRecord).rating = pyOrNA c4w_item.rating_text ∧
    ∃ pre post,
      fullInfo c4w_item.info_texts = pre ++ (pyOrNA c4w_item.rating_text).data ++ post ∧
      (stateAfter c4w_item 1).working = pre ++ post ∧
      ∀ pre2 post2,
        fullInfo c4w_item.info_texts = pre2 ++ (pyOrNA c4w_item.rating_text).data ++ post2 →
        pre.length ≤ pre2.length := by
  have h := c4_amended_rating c4w_item
    { name := "Foo Bar", rating := "4.5", reviews := "N/A", price_str := "N/A",
      place_type := "N/A", address := "stars", phone_number := "N/A",
      website_url := some "N/A" } (by rfl)
  exact ⟨by rfl, by decide, by rfl, h.1, h.2 (by decide) (by rfl)⟩

/-- The rating-removal stage changes only the working text. -/
theorem stRemoveRating_proj (r : List Char) (st : ExtState) :
    (stRemoveRating r st).price_str = st.price_str ∧
    (stRemoveRating r st).place_type = st.place_type ∧
    (stRemoveRating r st).address = st.address ∧
    (stRemoveRating r st).phone_number = st.phone_number ∧
    (stRemoveRating r st).website_url = st.website_url := by
  unfold stRemoveRating
  split <;> exact ⟨rfl, rfl, rfl, rfl, rfl⟩

/-- The reviews-removal stage changes only the working text. -/
theorem stRemoveReviews_proj (r : List Char) (st : ExtState) :
    (stRemoveReviews r st).price_str = st.price_str ∧
    (stRemoveReviews r st).place_type = st.place_type ∧
    (stRemoveReviews r st).address = st.address ∧
    (stRemoveReviews r st).phone_number = st.phone_number ∧
    (stRemoveReviews r st).website_url = st.website_url := by
  unfold stRemoveReviews
  split <;> exact ⟨rfl, rfl, rfl, rfl, rfl⟩

/-- Only stage 3 (the price pass) writes the price field. -/
theorem applyStage_price (o r v : List Char) (i : Nat) (st : ExtState) (hi : i ≠ 3) :
    (applyStage o r v i st).price_str = st.price_str := by
  match i with
  | 0 => exact (stRemoveRating_proj r st).1
  | 1 => exact (stRemoveReviews_proj v st).1
  | 2 => rfl
  | 3 => exact absurd rfl hi
  | 4 => exact (stPhone_proj o st).2.2.1
  | 5 => rfl
  | 6 => exact (tryTypes_proj known_types st).2.2.1
  | 7 => rfl
  | 8 => exact (stAddress_proj st).2.2.1
  | 9 => exact (stSanity_proj st).1
  | (m + 10) => rfl

/-- Only stage 4 (the phone pass) writes the phone field. -/
theorem applyStage_phone (o r v : List Char) (i : Nat) (st : ExtState) (hi : i ≠ 4) :
    (applyStage o r v i st).phone_number = st.phone_number := by
  match i with
  | 0 => exact (stRemoveRating_proj r st).2.2.2.1
  | 1 => exact (stRemoveReviews_proj v st).2.2.2.1
  | 2 => rfl
  | 3 =>
    show (stPrice st).phone_number = st.phone_number
    rw [show stPrice st = tierB (tierA st) from rfl, (tierB_proj (tierA st)).2.2.1,
      (tierA_proj st).2.2.1]
  | 4 => exact absurd rfl hi
  | 5 => rfl
  | 6 => exact (tryTypes_proj known_types st).2.2.2.1
  | 7 => rfl
  | 8 => exact (stAddress_proj st).2.2.2.1
  | 9 => exact (stSanity_proj st).2.1
  | (m + 10) => rfl

/-- Only stages 6 (type pass) and 9 (sanity) write the type field. -/
theorem applyStage_type (o r v : List Char) (i : Nat) (st : ExtState)
    (hi6 : i ≠ 6) (hi9 : i ≠ 9) :
    (applyStage o r v i st).place_type = st.place_type := by
  match i with
  | 0 => exact (stRemoveRating_proj r st).2.1
  | 1 => exact (stRemoveReviews_proj v st).2.1
  | 2 => rfl
  | 3 =>
    show (stPrice st).place_type = st.place_type
    rw [show stPrice st = tierB (tierA st) from rfl, (tierB_proj (tierA st)).1,
      (tierA_proj st).1]
  | 4 => exact (stPhone_proj o st).1
  | 5 => rfl
  | 6 => exact absurd rfl hi6
  | 7 => rfl
  | 8 => exact (stAddress_proj st).2.1
  | 9 => exact absurd rfl hi9
  | (m + 10) => rfl

/-- Only stages 8 (address pass) and 9 (sanity) write the address field. -/
theorem applyStage_addr (o r v : List Char) (i : Nat) (st : ExtState)
    (hi8 : i ≠ 8) (hi9 : i ≠ 9) :
    (applyStage o r v i st).address = st.address := by
  match i with
  | 0 => exact (stRemoveRating_proj r st).2.2.1
  | 1 => exact (stRemoveReviews_proj v st).2.2.1
  | 2 => rfl
  | 3 =>
    show (stPrice st).address = st.address
    rw [show stPrice st = tierB (tierA st) from rfl, (tierB_proj (tierA st)).2.1,
      (tierA_proj st).2.1]
  | 4 => exact (stPhone_proj o st).2.1
  | 5 => rfl
  | 6 => exact (tryTypes_proj known_types st).2.1
  | 7 => rfl
  | 8 => exact absurd rfl hi8
  | 9 => exact absurd rfl hi9
  | (m + 10) => rfl

/-- Only stage 9 (the website default) writes the website field. -/
theorem applyStage_web (o r v : List Char) (i : Nat) (st : ExtState) (hi : i ≠ 9) :
    (applyStage o r v i st).website_url = st.website_url := by
  match i with
  | 0 => exact (stRemoveRating_proj r st).2.2.2.2
  | 1 => exact (stRemoveReviews_proj v st).2.2.2.2
  | 2 => rfl
  | 3 =>
    show (stPrice st).website_url = st.website_url
    rw [show stPrice st = tierB (tierA st) from rfl, (tierB_proj (tierA st)).2.2.2,
      (tierA_proj st).2.2.2]
  | 4 => exact (stPhone_proj o st).2.2.2
  | 5 => rfl
  | 6 => exact (tryTypes_proj known_types st).2.2.2.2
  | 7 => rfl
  | 8 => exact (stAddress_proj st).2.2.2.2.1
  | 9 => exact absurd rfl hi
  | (m + 10) => rfl

/-- One-stage unfolding of `stateAfter`. -/
theorem stateAfter_succ (d : ItemData) (n : Nat) :
    stateAfter d (n + 1) = applyStage (fullInfo d.info_texts)
      (pyOrNA d.rating_text).data (jsReviews d.reviews_text).data n (stateAfter d n) := by
  unfold stateAfter
  exact runStages_succ _ _ _ n _

/-- Before the price pass, the price is the sentinel. -/
theorem stateAfter_price_le3 (d : ItemData) : ∀ k, k ≤ 3 → (stateAfter d k).price_str = naL := by
  intro k
  induction k with
  | zero => intro _; rfl
  | succ k ih =>
    intro h
    rw [stateAfter_succ, applyStage_price _ _ _ _ _ (by omega)]
    exact ih (by omega)

/-- After the price pass, the price never changes again. -/
theorem stateAfter_price_ge4 (d : ItemData) : ∀ k, 4 ≤ k →
    (stateAfter d k).price_str = (stateAfter d 4).price_str := by
  intro k
  induction k with
  | zero => intro h; omega
  | succ k ih =>
    intro h
    by_cases h4 : 4 ≤ k
    · rw [stateAfter_succ, applyStage_price _ _ _ _ _ (by omega)]
      exact ih h4
    · have : k + 1 = 4 := by omega
      rw [this]

/-- Before the phone pass, the phone is the sentinel. -/
theorem stateAfter_phone_le4 (d : ItemData) : ∀ k, k ≤ 4 → (stateAfter d k).phone_number = naL := by
  intro k
  induction k with
  | zero => intro _; rfl
  | succ k ih =>
    intro h
    rw [stateAfter_succ, applyStage_phone _ _ _ _ _ (by omega)]
    exact ih (by omega)

/-- After the phone pass, the phone never changes again. -/
theorem stateAfter_phone_ge5 (d : ItemData) : ∀ k, 5 ≤ k →
    (stateAfter d k).phone_number = (stateAfter d 5).phone_number := by
  intro k
  induction k with
  | zero => intro h; omega
  | succ k ih =>
    intro h
    by_cases h5 : 5 ≤ k
    · rw [stateAfter_succ, applyStage_phone _ _ _ _ _ (by omega)]
      exact ih h5
    · have : k + 1 = 5 := by omega
      rw [this]

/-- Before the type pass, the type is the sentinel. -/
theorem stateAfter_type_le6 (d : ItemData) : ∀ k, k ≤ 6 → (stateAfter d k).place_type = naL := by
  intro k
  induction k with
  | zero => intro _; rfl
  | succ k ih =>
    intro h
    rw [stateAfter_succ, applyStage_type _ _ _ _ _ (by omega) (by omega)]
    exact ih (by omega)

/-- Between the type pass and the sanity pass, the type is stable. -/
theorem stateAfter_type_7_9 (d : ItemData) : ∀ k, 7 ≤ k → k ≤ 9 →
    (stateAfter d k).place_type = (stateAfter d 7).place_type := by
  intro k
  induction k with
  | zero => intro h _; omega
  | succ k ih =>
    intro h h9
    by_cases h7 : 7 ≤ k
    · rw [stateAfter_succ, applyStage_type _ _ _ _ _ (by omega) (by omega)]
      exact ih h7 (by omega)
    · have : k + 1 = 7 := by omega
      rw [this]

/-- Before the address pass, the address is the sentinel. -/
theorem stateAfter_addr_le8 (d : ItemData) : ∀ k, k ≤ 8 → (stateAfter d k).address = naL := by
  intro k
  induction k with
  | zero => intro _; rfl
  | succ k ih =>
    intro h
    rw [stateAfter_succ, applyStage_addr _ _ _ _ _ (by omega) (by omega)]
    exact ih (by omega)

/-- Before the website default, the website is the raw JS value. -/
theorem stateAfter_web_le9 (d : ItemData) : ∀ k, k ≤ 9 →
    (stateAfter d k).website_url = d.website_url := by
  intro k
  induction k with
  | zero => intro _; rfl
  | succ k ih =>
    intro h
    rw [stateAfter_succ, applyStage_web _ _ _ _ _ (by omega)]
    exact ih (by omega)

/-- The price value that the price pass determines (stable afterwards). -/
def priceDet (d : ItemData) : String := String.mk (stateAfter d 4).price_str

/-- The phone value that the phone pass determines. -/
def phoneDet (d : ItemData) : String := String.mk (stateAfter d 5).phone_number

/-- The type value that the type pass determines (before sanity). -/
def typeDet (d : ItemData) : String := String.mk (stateAfter d 7).place_type

/-- The address value that the address pass determines (before sanity). -/
def addrDet (d : ItemData) : String := String.mk (stateAfter d 9).address

/-- `parseItemF` as the guard plus a record over `stateAfter`. -/
theorem parseItemF_eq (d : ItemData) (f : Nat) :
    parseItemF d f =
      if cleanTextOpt d.name = "" ∨ cleanTextOpt d.name = "N/A" then none
      else some
        { name := cleanTextOpt d.name
          rating := pyOrNA d.rating_text
          reviews := jsReviews d.reviews_text
          price_str := String.mk (stateAfter d (Nat.min f numStages)).price_str
          place_type := String.mk (stateAfter d (Nat.min f numStages)).place_type
          address := String.mk (stateAfter d (Nat.min f numStages)).address
          phone_number := String.mk (stateAfter d (Nat.min f numStages)).phone_number
          website_url := (stateAfter d (Nat.min f numStages)).website_url } := rfl

/-- Whether a record is appended does not depend on the fault point. -/
theorem parseItemF_isSome (d : ItemData) (f g : Nat) :
    (parseItemF d f).isSome = (parseItemF d g).isSome := by
  rw [parseItemF_eq d f, parseItemF_eq d g]
  by_cases hg : cleanTextOpt d.name = "" ∨ cleanTextOpt d.name = "N/A"
  · rw [if_pos hg, if_pos hg]
  · rw [if_neg hg, if_neg hg]
    rfl

/-- C9 amended: a failure after any number of completed guarded stages is
caught locally — a record is still appended exactly when the no-fault run
would append one, the batch length is unchanged by any fault schedule,
fields determined before the failure keep their determined values and the
undetermined extraction fields stay the sentinel; the website field is
either the raw (possibly absent) JS value — when the failure precedes the
line-329 defaulting — or its defaulted value. -/
theorem c9_amended_fault_isolation :
    (∀ (fs : Nat → Nat) (ds : List ItemData) (j : Nat),
       (results_loop fs j ds).length = (results_loop (fun _ => numStages) j ds).length) ∧
    (∀ (d : ItemData) (f : Nat),
       (parseItemF d f).isSome = (parseItem d).isSome) ∧
    (∀ (d : ItemData) (f : Nat) (rec : ListingRecord), parseItemF d f = some rec →
       rec.name = cleanTextOpt d.name ∧
       rec.rating = pyOrNA d.rating_text ∧
       rec.reviews = jsReviews d.reviews_text ∧
       (rec.price_str = "N/A" ∨ rec.price_str = priceDet d) ∧
       (rec.phone_number = "N/A" ∨ rec.phone_number = phoneDet d) ∧
       (rec.place_type = "N/A" ∨ rec.place_type = typeDet d) ∧
       (rec.address = "N/A" ∨ rec.address = addrDet d) ∧
       (rec.website_url = d.website_url ∨ rec.website_url = some (pyOrNA d.website_url))) := by
  refine ⟨?_, ?_, ?_⟩
  · intro fs ds
    induction ds with
    | nil => intro j; rfl
    | cons d ds ih =>
      intro j
      show (match parseItemF d (fs j) with
            | some r => r :: results_loop fs (j + 1) ds
            | none => results_loop fs (j + 1) ds).length =
           (match parseItemF d numStages with
            | some r => r :: results_loop (fun _ => numStages) (j + 1) ds
            | none => results_loop (fun _ => numStages) (j + 1) ds).length
      cases hp : parseItemF d (fs j) with
      | some r =>
        have hs : (parseItemF d numStages).isSome = true := by
          rw [parseItemF_isSome d numStages (fs j), hp]
          rfl
        obtain ⟨r2, hr2⟩ := Option.isSome_iff_exists.mp hs
        rw [hr2]
        simpa using ih (j + 1)
      | none =>
        have h2 := parseItemF_isSome d numStages (fs j)
        rw [hp] at h2
        cases hq : parseItemF d numStages with
        | some r2 => rw [hq] at h2; simp at h2
        | none => exact ih (j + 1)
  · intro d f
    exact parseItemF_isSome d f numStages
  · intro d f rec h
    rw [parseItemF_eq] at h
    by_cases hg : cleanTextOpt d.name = "" ∨ cleanTextOpt d.name = "N/A"
    · rw [if_pos hg] at h
      exact absurd h (by simp)
    · rw [if_neg hg] at h
      simp only [Option.some_inj] at h
      subst h
      have hns : numStages = 10 := rfl
      have hk10 : Nat.min f numStages ≤ 10 := by
        rw [← hns]
        exact Nat.min_le_right f numStages
      set k := Nat.min f numStages with hkdef
      refine ⟨rfl, rfl, rfl, ?_, ?_, ?_, ?_, ?_⟩
      · by_cases h3 : k ≤ 3
        · left
          show String.mk (stateAfter d k).price_str = "N/A"
          rw [stateAfter_price_le3 d k h3]
          rfl
        · right
          show String.mk (stateAfter d k).price_str = priceDet d
          rw [stateAfter_price_ge4 d k (by omega)]
          rfl
      · by_cases h4 : k ≤ 4
        · left
          show String.mk (stateAfter d k).phone_number = "N/A"
          rw [stateAfter_phone_le4 d k h4]
          rfl
        · right
          show String.mk (stateAfter d k).phone_number = phoneDet d
          rw [stateAfter_phone_ge5 d k (by omega)]
          rfl
      · by_cases h6 : k ≤ 6
        · left
          show String.mk (stateAfter d k).place_type = "N/A"
          rw [stateAfter_type_le6 d k h6]
          rfl
        · by_cases h9 : k ≤ 9
          · right
            show String.mk (stateAfter d k).place_type = typeDet d
            rw [stateAfter_type_7_9 d k (by omega) h9]
            rfl
          · have hkk : k = 10 := by omega
            rw [hkk, show (10 : Nat) = 9 + 1 from rfl, stateAfter_succ]
            generalize hS : stateAfter d 9 = S9
            have hA : applyStage (fullInfo d.info_texts) (pyOrNA d.rating_text).data
                (jsReviews d.reviews_text).data 9 S9 = stSanity S9 := rfl
            rw [hA]
            have hT : (stSanity S9).place_type = sanityType S9.place_type S9.address := rfl
            rcases sanityType_cases S9.place_type S9.address with hc | hc
            · left
              show String.mk (stSanity S9).place_type = "N/A"
              rw [hT, hc]
              rfl
            · right
              show String.mk (stSanity S9).place_type = typeDet d
              rw [hT, hc, ← hS, stateAfter_type_7_9 d 9 (by omega) (by omega)]
              rfl
      · by_cases h8 : k ≤ 8
        · left
          show String.mk (stateAfter d k).address = "N/A"
          rw [stateAfter_addr_le8 d k h8]
          rfl
        · by_cases h9 : k ≤ 9
          · right
            have hkk : k = 9 := by omega
            rw [hkk]
            rfl
          · have hkk : k = 10 := by omega
            rw [hkk, show (10 : Nat) = 9 + 1 from rfl, stateAfter_succ]
            generalize hS : stateAfter d 9 = S9
            have hA : applyStage (fullInfo d.info_texts) (pyOrNA d.rating_text).data
                (jsReviews d.reviews_text).data 9 S9 = stSanity S9 := rfl
            rw [hA]
            have hAd : (stSanity S9).address = sanityAddr S9.address := rfl
            rcases sanityAddr_cases S9.address with hc | hc
            · left
              show String.mk (stSanity S9).address = "N/A"
              rw [hAd, hc]
              rfl
            · right
              show String.mk (stSanity S9).address = addrDet d
              rw [hAd, hc, ← hS]
              rfl
      · by_cases h9 : k ≤ 9
        · left
          exact stateAfter_web_le9 d k h9
        · right
          have hkk : k = 10 := by omega
          rw [hkk, show (10 : Nat) = 9 + 1 from rfl, stateAfter_succ]
          generalize hS : stateAfter d 9 = S9
          have hA : applyStage (fullInfo d.info_texts) (pyOrNA d.rating_text).data
              (jsReviews d.reviews_text).data 9 S9 = stSanity S9 := rfl
          rw [hA]
          show some (pyOrNA S9.website_url) = some (pyOrNA d.website_url)
          rw [← hS, stateAfter_web_le9 d 9 (by omega)]

/-- Concrete bundle for the C9 witness: a price present, no website link. -/
def c9w_item : ItemData :=
  { name := some "Corner Cafe", rating_text := none, reviews_text := none,
    website_url := none, info_texts := ["£5 · Nice Cafe Road 12"] }

/-- C9 witness: the fault-isolation theorem applied to a concrete bundle
with a fault after the price pass — the record is still appended, the
already-determined price is kept, the undetermined fields stay the
sentinel, and the batch length is unchanged. -/
theorem c9_amended_fault_isolation_witness :
    parseItemF c9w_item 4 = some
      { name := "Corner Cafe", rating := "N/A", reviews := "N/A", price_str := "£5",
        place_type := "N/A", address := "N/A", phone_number := "N/A",
        website_url := none } ∧
    (results_loop (fun _ => 4) 0 [c9w_item]).length =
      (results_loop (fun _ => numStages) 0 [c9w_item]).length ∧
    (parseItemF c9w_item 4).isSome = (parseItem c9w_item).isSome ∧
    (({ name := "Corner Cafe", rating := "N/A", reviews := "N/A", price_str := "£5",
        place_type := "N/A", address := "N/A", phone_number := "N/A",
        website_url := none } : ListingRecord).price_str = "N/A" ∨
     ({ name := "Corner Cafe", rating := "N/A", reviews := "N/A", price_str := "£5",
        place_type := "N/A", address := "N/A", phone_number := "N/A",
        website_url := none } : ListingRecord).price_str = priceDet c9w_item) ∧
    (({ name := "Corner Cafe", rating := "N/A", reviews := "N/A", price_str := "£5",
        place_type := "N/A", address := "N/A", phone_number := "N/A",
        website_url := none } : ListingRecord).website_url = c9w_item.website_url ∨
     ({ name := "Corner Cafe", rating := "N/A", reviews := "N/A", price_str := "£5",
        place_type := "N/A", address := "N/A", phone_number := "N/A",
        website_url := none } : ListingRecord).website_url = some (pyOrNA c9w_item.website_url)) := by
  have h := c9_amended_fault_isolation
  refine ⟨by rfl, h.1 (fun _ => 4) [c9w_item] 0, h.2.1 c9w_item 4, ?_, ?_⟩
  · exact (h.2.2 c9w_item 4 _ (by rfl)).2.2.2.1
  · exact (h.2.2 c9w_item 4 _ (by rfl)).2.2.2.2.2.2.2
